import Mathlib

/-!
The imux session router and transport pool.

A shallow embedding of the server side router of `many_to_one.go`
(`ManyToOne`, `createResponderIMUXIfNeeded`, `writeResponseChunksIfNeeded`,
`updateSessionChunkSize`, `queueForDestinationDialIfNeeded`) and of the client
side `ParseNetworks` and `BuildWorkers` of `imux.go`.

Go maps are association lists, the package level variables are the fields of
`State`, a goroutine is an entry of a task list whose body is a step function,
and a channel is the list of the values it holds (head = next to be received).
-/

namespace Imux

/-! ## Go maps -/

/-- A Go `map[K]V`: an association list holding at most one pair per key. -/
abbrev GoMap (κ : Type) (α : Type) := List (κ × α)

namespace GoMap

variable {κ : Type} {α : Type} [DecidableEq κ]

/-- The lookup `v, present := m[k]`. -/
def get : GoMap κ α → κ → Option α
  | [], _ => none
  | (k', v) :: m, k => if k' = k then some v else get m k

/-- The assignment `m[k] = v`. -/
def set : GoMap κ α → κ → α → GoMap κ α
  | [], k, v => [(k, v)]
  | (k', v') :: m, k, v => if k' = k then (k, v) :: m else (k', v') :: set m k v

end GoMap

/-! ## Data -/

/-- A `net.Conn`: the identity of a connection. -/
abbrev Conn := Nat

/-- The wire unit `Chunk` (the fields the router reads). -/
structure Chunk where
  SessionID : String
  SocketID : String
  SequenceID : Nat
  Data : List Nat
deriving DecidableEq, Repr

/-- Modelled from the spec: the type `DataIMUX`, whose declaration is missing
from the sources. The router uses two of its channels: `Chunks`, which the
writer tasks of the session receive from, and `Stale`, which a writer task
sends a chunk to when its write fails. -/
structure DataIMUX where
  Chunks : List Chunk
  Stale : List Chunk
deriving DecidableEq, Repr

/-- Modelled from the spec: the constructor `NewDataIMUX`, whose body is
missing from the sources; it creates the response fan-out of a session with
nothing published. -/
def NewDataIMUX (_session_id : String) : DataIMUX :=
  { Chunks := [], Stale := [] }

/-- Modelled from the spec: the type `WriteQueue`, whose declaration is missing
from the sources. It is bound to one destination dial, and `Chunks` is the
channel the handler sends to (here: every chunk sent so far, in order). -/
structure WriteQueue where
  Destination : Option Conn
  Chunks : List Chunk
deriving DecidableEq, Repr

/-- Modelled from the spec: the constructor `NewWriteQueue`, whose body is
missing from the sources; it binds a fresh queue to the dialed destination. -/
def NewWriteQueue (destination : Option Conn) : WriteQueue :=
  { Destination := destination, Chunks := [] }

/-- The result `(net.Conn, error)` of one call of `dial_destination`. -/
structure DialResult where
  conn : Option Conn
  err : Option String
deriving DecidableEq, Repr

/-- The environment of the router: the result of the `k`-th call of
`dial_destination` (counted from 0). -/
abbrev Dialer := Nat → DialResult

/-- A goroutine started by `writeResponseChunksIfNeeded`. -/
structure WriterTask where
  socket : Conn
  session_id : String
deriving DecidableEq, Repr

/-- A goroutine `imuxer.ReadFrom(socket_id, destination, session_id, "server")`. -/
structure ReaderTask where
  socket_id : String
  destination : Option Conn
  session_id : String
deriving DecidableEq, Repr

/-- The package level variables of `many_to_one.go`, the heap of `WriteQueue`
objects (a `*WriteQueue` is an index into `queues`), the goroutines, and the
record of what the environment has seen (dials, writes, log lines). -/
structure State where
  server_write_queues : GoMap String Nat
  queues : List WriteQueue
  responders : GoMap String DataIMUX
  loopers : GoMap Conn Bool
  ObservedMaximumChunkSizes : GoMap String Int
  /-- the running goroutines of `writeResponseChunksIfNeeded` -/
  writers : List WriterTask
  /-- every goroutine `writeResponseChunksIfNeeded` has started, oldest first -/
  started : List WriterTask
  /-- the `ReadFrom` goroutines started, oldest first -/
  readers : List ReaderTask
  /-- the socket ids `dial_destination` was called for, oldest first -/
  dialed : List String
  /-- the chunks written down each transport socket, oldest first -/
  sent : List (Conn × Chunk)
  /-- the chunks of the "dropped chunk" log lines, oldest first -/
  dropped : List Chunk
deriving DecidableEq, Repr

/-- The state at program start: every map is `make(map[...])`. -/
def State.init : State :=
  { server_write_queues := [], queues := [], responders := [], loopers := [],
    ObservedMaximumChunkSizes := [], writers := [], started := [], readers := [],
    dialed := [], sent := [], dropped := [] }

/-! ## The router -/

/-- The function `createResponderIMUXIfNeeded`. -/
def createResponderIMUXIfNeeded (session_id : String) (s : State) : State :=
  match s.responders.get session_id with
  | some _ => s
  | none => { s with responders := s.responders.set session_id (NewDataIMUX session_id) }

/-- The function `writeResponseChunksIfNeeded`: the `go func()` is recorded
in `writers` and `started`; its body is `writerCreateFailed` and `writerLoop`. -/
def writeResponseChunksIfNeeded (socket : Conn) (session_id : String) (s : State) : State :=
  match s.loopers.get socket with
  | some _ => s
  | none =>
    { s with
      writers := s.writers ++ [⟨socket, session_id⟩]
      started := s.started ++ [⟨socket, session_id⟩]
      loopers := s.loopers.set socket true }

/-- The function `updateSessionChunkSize`. -/
def updateSessionChunkSize (session_id : String) (data_len : Int) (s : State) : State :=
  match s.ObservedMaximumChunkSizes.get session_id with
  | some size =>
    if data_len > size then
      { s with ObservedMaximumChunkSizes := s.ObservedMaximumChunkSizes.set session_id data_len }
    else s
  | none =>
    { s with ObservedMaximumChunkSizes := s.ObservedMaximumChunkSizes.set session_id data_len }

/-- The function `queueForDestinationDialIfNeeded`. The result is `none` when
the `log.Fatal` branch ends the process, else the new state, the returned
`*WriteQueue` and the returned `error`. -/
def queueForDestinationDialIfNeeded (dial_destination : Dialer)
    (socket_id session_id : String) (s : State) : Option (State × Nat × Option String) :=
  match s.server_write_queues.get socket_id with
  | some queue => some (s, queue, none)
  | none =>
    let r := dial_destination s.dialed.length
    let queue := s.queues.length
    let s1 : State :=
      { s with
        dialed := s.dialed ++ [socket_id]
        queues := s.queues ++ [NewWriteQueue r.conn]
        server_write_queues := s.server_write_queues.set socket_id queue }
    match s1.responders.get session_id with
    | some _ =>
      some ({ s1 with readers := s1.readers ++ [⟨socket_id, r.conn, session_id⟩] }, queue, none)
    | none => none

/-- The send `queue.Chunks <- chunk`. -/
def sendChunk (queue : Nat) (chunk : Chunk) (s : State) : State :=
  { s with
    queues := s.queues.modify (fun q => { q with Chunks := q.Chunks ++ [chunk] }) queue }

/-- The handler `ManyToOne` registers for chunks: `socket` is `context.Socket`.
The result is `none` when `log.Fatal` ends the process. -/
def ManyToOne (dial_destination : Dialer) (socket : Conn) (chunk : Chunk) (s : State) :
    Option State :=
  let s1 := createResponderIMUXIfNeeded chunk.SessionID s
  let s2 := writeResponseChunksIfNeeded socket chunk.SessionID s1
  let s3 := updateSessionChunkSize chunk.SessionID chunk.Data.length s2
  match queueForDestinationDialIfNeeded dial_destination chunk.SocketID chunk.SessionID s3 with
  | none => none
  | some (s4, queue, err) =>
    match err with
    | none => some (sendChunk queue chunk s4)
    | some _ => some { s4 with dropped := s4.dropped ++ [chunk] }

/-- The handler `ManyToOne` on the chunks of `arrivals`, in arrival order,
each with the transport socket it arrived on. -/
def ManyToOneAll (dial_destination : Dialer) : List (Conn × Chunk) → State → Option State
  | [], s => some s
  | (socket, chunk) :: arrivals, s =>
    match ManyToOne dial_destination socket chunk s with
    | none => none
    | some s1 => ManyToOneAll dial_destination arrivals s1

/-- The calls `queueForDestinationDialIfNeeded(socket_id, session_id, dial_destination)`
for the `(socket_id, session_id)` of `calls`, in order: the final state and the
`*WriteQueue` each call returned. -/
def queueCalls (dial_destination : Dialer) :
    List (String × String) → State → Option (State × List Nat)
  | [], s => some (s, [])
  | (socket_id, session_id) :: calls, s =>
    match queueForDestinationDialIfNeeded dial_destination socket_id session_id s with
    | none => none
    | some (s1, queue, _) =>
      match queueCalls dial_destination calls s1 with
      | none => none
      | some (s2, queues) => some (s2, queue :: queues)

/-! ## The writer goroutine of `writeResponseChunksIfNeeded` -/

/-- The goroutine of task `t` when `tlj.NewStreamWriter` returns an error: it
logs and returns. -/
def writerCreateFailed (t : WriterTask) (s : State) : State :=
  { s with writers := s.writers.erase t }

/-- One iteration of the `for` loop of the goroutine of task `t`:
`new_chunk := <-chunk_stream.Chunks`, then `writer.Write(new_chunk)`, which
returns `nil` when `write_ok`. The result is `none` when `t` is not running or
the receive blocks. -/
def writerLoop (t : WriterTask) (write_ok : Bool) (s : State) : Option State :=
  if t ∈ s.writers then
    match s.responders.get t.session_id with
    | none => none
    | some chunk_stream =>
      match chunk_stream.Chunks with
      | [] => none
      | new_chunk :: rest =>
        if write_ok then
          some { s with
            responders := s.responders.set t.session_id { chunk_stream with Chunks := rest }
            sent := s.sent ++ [(t.socket, new_chunk)] }
        else
          some { s with
            responders := s.responders.set t.session_id
              { Chunks := rest, Stale := chunk_stream.Stale ++ [new_chunk] }
            writers := s.writers.erase t }
  else none

/-- Modelled from the spec: the code of `DataIMUX` that serves `Stale`, which
is missing from the sources. A chunk that failed to send "is pushed back onto
the handoff queue for redelivery by a different writer task": the chunks on
`Stale` move to the end of `Chunks`. -/
def requeueStale (session_id : String) (s : State) : State :=
  match s.responders.get session_id with
  | none => s
  | some imux =>
    { s with
      responders := s.responders.set session_id
        { Chunks := imux.Chunks ++ imux.Stale, Stale := [] } }

/-! ## The chunk sequencer of a write queue -/

/-- Modelled from the spec: what the spec leaves open about the draining writer
task of a `WriteQueue`, which is missing from the sources, and about its
destination: the origin of the sequence ids ("0 or 1"), the bound
"implementations must" put on the buffer of held chunks, and whether the
`k`-th write to the destination (counted from 0) succeeds. -/
structure WriterEnv where
  origin : Nat
  bound : Nat
  write_ok : Nat → Bool

/-- Modelled from the spec: why the writer task of a queue has ended, an
overlong gap ("fails with `SequenceGapTimeout`") or "a destination write
error". -/
inductive WriterStop where
  | SequenceGapTimeout
  | WriteFailure
deriving DecidableEq, Repr

/-- Modelled from the spec: the Chunk Sequencer of the writer task, an
expected-next counter and the chunks it holds back. -/
structure Sequencer where
  expected : Nat
  held : List Chunk
deriving DecidableEq, Repr

/-- Modelled from the spec: "the longest contiguous run of chunks at or after
expected next, advancing the counter". At most `fuel` chunks are released. -/
def Sequencer.release : Nat → Sequencer → List Chunk × Sequencer
  | 0, q => ([], q)
  | fuel + 1, q =>
    match q.held.find? (fun c => c.SequenceID = q.expected) with
    | none => ([], q)
    | some c =>
      let r := Sequencer.release fuel { expected := q.expected + 1, held := q.held.erase c }
      (c :: r.1, r.2)

/-- Modelled from the spec: the chunk is buffered "keyed by SequenceID against
an expected-next counter", and the longest contiguous run is released;
"out-of-order chunks are held (not dropped) until the gap is filled". -/
def Sequencer.buffer (q : Sequencer) (chunk : Chunk) : List Chunk × Sequencer :=
  Sequencer.release (q.held.length + 1) { q with held := q.held ++ [chunk] }

/-- Modelled from the spec: `accept(chunk)` returns the released run; the
buffer is bounded, and more than `bound` held chunks are "an overlong gap", a
"session fault (fails with `SequenceGapTimeout`)": the result `none`. -/
def Sequencer.accept (bound : Nat) (q : Sequencer) (chunk : Chunk) :
    Option (List Chunk × Sequencer) :=
  if bound < (q.buffer chunk).2.held.length then none else some (q.buffer chunk)

/-- Modelled from the spec: the writer task of a queue, with its sequencer, the
chunks it has written to the destination, oldest first, and why it has ended,
if it has. -/
structure QueueWriter where
  sequencer : Sequencer
  written : List Chunk
  stopped : Option WriterStop
deriving DecidableEq, Repr

/-- Modelled from the spec: the released chunks are written to the destination
in order; "a destination write error ends that writer task". -/
def QueueWriter.writeAll (write_ok : Nat → Bool) : QueueWriter → List Chunk → QueueWriter
  | w, [] => w
  | w, chunk :: chunks =>
    if write_ok w.written.length then
      QueueWriter.writeAll write_ok { w with written := w.written ++ [chunk] } chunks
    else { w with stopped := some .WriteFailure }

/-- Modelled from the spec: the writer task receives one chunk from the channel
of its queue; a task that has ended does nothing, "the queue becomes inert". -/
def QueueWriter.receive (env : WriterEnv) (w : QueueWriter) (chunk : Chunk) : QueueWriter :=
  match w.stopped with
  | some _ => w
  | none =>
    match w.sequencer.accept env.bound chunk with
    | none => { w with stopped := some .SequenceGapTimeout }
    | some r => QueueWriter.writeAll env.write_ok { w with sequencer := r.2 } r.1

/-- Modelled from the spec: the writer task receives the chunks of the channel
in order. -/
def QueueWriter.drain (env : WriterEnv) : QueueWriter → List Chunk → QueueWriter
  | w, [] => w
  | w, chunk :: chunks => QueueWriter.drain env (w.receive env chunk) chunks

/-- Modelled from the spec: the writer task of a new queue. -/
def QueueWriter.start (env : WriterEnv) : QueueWriter :=
  { sequencer := { expected := env.origin, held := [] }, written := [], stopped := none }

/-- Modelled from the spec: the writer task of the queue after it has received
every chunk sent to the queue; no write succeeds when the queue has no
destination. -/
def WriteQueue.writer (env : WriterEnv) (q : WriteQueue) : QueueWriter :=
  match q.Destination with
  | none =>
    QueueWriter.drain { env with write_ok := fun _ => false } (QueueWriter.start env) q.Chunks
  | some _ => QueueWriter.drain env (QueueWriter.start env) q.Chunks

/-- The writer task of the queue of `socket_id`, if the socket id has a queue. -/
def writerOf (env : WriterEnv) (socket_id : String) (s : State) : Option QueueWriter :=
  match s.server_write_queues.get socket_id with
  | none => none
  | some queue =>
    match s.queues[queue]? with
    | none => none
    | some q => some (q.writer env)

/-- The chunks delivered to the destination of `socket_id`, in order. -/
def deliveredTo (env : WriterEnv) (socket_id : String) (s : State) : List Chunk :=
  match writerOf env socket_id s with
  | none => []
  | some w => w.written

/-- The length of the run `e`, `e + 1`, ... of sequence ids that are in `ids`,
`fuel` at most. -/
def runLength (ids : List Nat) : Nat → Nat → Nat
  | 0, _ => 0
  | fuel + 1, e => if e ∈ ids then runLength ids fuel (e + 1) + 1 else 0

/-- The number of chunks that are held back once the chunks with the sequence
ids `ids` have arrived: all but the run that starts at `origin`. -/
def heldBack (origin : Nat) (ids : List Nat) : Nat :=
  ids.length - runLength ids ids.length origin

/-- A writer task that tolerates `bound` held chunks, counts from 0, and whose
writes succeed. -/
def patientWriter (bound : Nat) : WriterEnv :=
  { origin := 0, bound := bound, write_ok := fun _ => true }

/-! ## The transport pool of `imux.go` -/

/-- A `tlj.Client`: the identity of a worker. -/
abbrev Client := Nat

/-- How the goroutine of one link attempt of `BuildWorkers` ends: `tls.Dial`
fails, the `WorkerReady` request fails, or the client is built. -/
inductive Attempt where
  | dialFailed
  | readyFailed
  | built (client : Client)
deriving DecidableEq, Repr

/-- What an attempt sends on the channel `built`. -/
def Attempt.success : Attempt → Bool
  | .built _ => true
  | _ => false

/-- The locals of `BuildWorkers` in its receive loop; `received` counts the
values received from `built`, `statuses` are the `print_status` lines
(built, total, failed). -/
structure BuildProgress where
  workers : List Client
  total_built : Int
  total_failed : Int
  received : Nat
  statuses : List (Int × Int × Int)
deriving DecidableEq, Repr

/-- What `BuildWorkers` returns, and the `print_finished` line
(built, total, failed). -/
structure BuildResult where
  workers : List Client
  err : Option String
  finished : Int × Int × Int
  statuses : List (Int × Int × Int)
deriving DecidableEq, Repr

/-- The body of the receive loop: `success := <-built`; `resolved k` is the
attempt whose result is the `k`-th to be received. -/
def receiveOne (resolved : Nat → Attempt) (total_sockets : Int) (p : BuildProgress) :
    BuildProgress :=
  let p1 : BuildProgress :=
    match resolved p.received with
    | .built client =>
      { p with total_built := p.total_built + 1, workers := p.workers ++ [client] }
    | _ => { p with total_failed := p.total_failed + 1 }
  { p1 with
    received := p.received + 1
    statuses := p1.statuses ++ [(p1.total_built, total_sockets, p1.total_failed)] }

/-- The loop `for i := 0; i < count; i++` around `receiveOne`, `n` iterations. -/
def receiveLoop (resolved : Nat → Attempt) (total_sockets : Int) :
    Nat → BuildProgress → BuildProgress
  | 0, p => p
  | n + 1, p => receiveLoop resolved total_sockets n (receiveOne resolved total_sockets p)

/-- The function `BuildWorkers` on the pool specification `networks` (`int`
counts, no overflow: one goroutine is started per unit of a count). -/
def BuildWorkers (networks : GoMap String Int) (resolved : Nat → Attempt) : BuildResult :=
  let total_sockets : Int := networks.foldl (fun n p => n + p.2) 0
  let p := networks.foldl
    (fun p nw => receiveLoop resolved total_sockets nw.2.toNat p)
    { workers := [], total_built := 0, total_failed := 0, received := 0, statuses := [] }
  { workers := p.workers
    err := if p.total_failed = total_sockets then
        some "all transfer sockets failed to build" else none
    finished := (p.total_built, total_sockets, p.total_failed)
    statuses := p.statuses }

/-- The function `ParseNetworks`. -/
def ParseNetworks (_data : String) : GoMap String Int :=
  GoMap.set [] "0.0.0.0" 2

/-- The number of link attempts `networks` asks for. -/
def linkCount (networks : GoMap String Int) : Nat :=
  (networks.map (fun nw => nw.2.toNat)).sum

/-- The client an attempt sends on the channel `created`, if it was built. -/
def Attempt.client? : Attempt → Option Client
  | .built client => some client
  | _ => none

/-- The clients built by the first `n` resolved attempts, in the order in which
the attempts resolved. -/
def builtClients (resolved : Nat → Attempt) (n : Nat) : List Client :=
  (List.range n).filterMap (fun k => (resolved k).client?)

/-- The counters of the receive loop agree with the results received so far. -/
def BuildProgress.Consistent (resolved : Nat → Attempt) (p : BuildProgress) : Prop :=
  p.workers = builtClients resolved p.received
  ∧ p.total_built = p.workers.length
  ∧ p.total_built + p.total_failed = p.received

/-- Five link attempts of which the second fails at the dial and the fourth at
the `WorkerReady` request. -/
def twoOfFiveFail : Nat → Attempt :=
  fun k => if k = 1 then .dialFailed else if k = 3 then .readyFailed else .built k

/-- The calls `updateSessionChunkSize(session_id, n)` for the `n` of `ns`, in order. -/
def updateSessionChunkSizes (session_id : String) (ns : List Int) (s : State) : State :=
  ns.foldl (fun t n => updateSessionChunkSize session_id n t) s

/-- The calls `writeResponseChunksIfNeeded(socket, session_id)` for the
`session_id` of `sids`, in order. -/
def registerLink (socket : Conn) (sids : List String) (s : State) : State :=
  sids.foldl (fun t sid => writeResponseChunksIfNeeded socket sid t) s

/-- A session `"a"` served by the one link 7, with one response chunk
published: the state after `createResponderIMUXIfNeeded("a")` and
`writeResponseChunksIfNeeded(7, "a")`, and a chunk on the handoff queue. -/
def servedSession : State :=
  { writeResponseChunksIfNeeded 7 "a" (createResponderIMUXIfNeeded "a" State.init) with
    responders := [("a", { Chunks := [⟨"a", "x", 0, [1]⟩], Stale := [] })] }

/-- A destination that refuses every dial. -/
def dialRefused : Dialer := fun _ => { conn := none, err := some "connection refused" }

/-- A destination that accepts every dial; the `k`-th connection is `100 + k`. -/
def dialAccepted : Dialer := fun k => { conn := some (100 + k), err := none }

/-- No chunk the sequencer holds back is the one it waits for. -/
def Sequencer.Settled (q : Sequencer) : Prop :=
  ∀ c ∈ q.held, c.SequenceID ≠ q.expected

/-- The writer task runs after it has received the chunks `received` (in any
order): it has written an unbroken run of sequence ids from the origin, waits
for the next one, and holds the other chunks back. -/
def QueueWriter.Running (env : WriterEnv) (received : List Chunk) (w : QueueWriter) : Prop :=
  w.stopped = none
  ∧ w.written.map Chunk.SequenceID = List.range' env.origin w.written.length
  ∧ w.sequencer.expected = env.origin + w.written.length
  ∧ (w.written ++ w.sequencer.held).Perm received
  ∧ w.sequencer.Settled

/-- The chunks the writer task has written are an unbroken run of sequence ids
from the origin, and a task that has not ended waits for the next one. -/
def QueueWriter.InOrder (env : WriterEnv) (w : QueueWriter) : Prop :=
  w.written.map Chunk.SequenceID = List.range' env.origin w.written.length
  ∧ (w.stopped = none → w.sequencer.expected = env.origin + w.written.length)

/-- The chunk of session `"a"`, socket id `"x"` with sequence id `n`. -/
def chunkOf (n : Nat) : Chunk :=
  { SessionID := "a", SocketID := "x", SequenceID := n, Data := [n] }

/-- Every stored `*WriteQueue` points into the heap of queues, and no two
socket ids share a queue. -/
def State.WellFormed (s : State) : Prop :=
  (∀ p ∈ s.server_write_queues, p.2 < s.queues.length)
  ∧ (s.server_write_queues.map Prod.snd).Nodup

/-! ## Concurrent runs of the handler -/

/-- A run of the handler of `ManyToOne` on one chunk: `pc` counts the calls of
the body that have returned, and `queue` is what
`queueForDestinationDialIfNeeded` returned, once it has. -/
structure HandlerRun where
  socket : Conn
  chunk : Chunk
  pc : Nat
  queue : Option (Nat × Option String)
deriving DecidableEq, Repr

/-- The next call of a run of the handler; each call holds its mutex for its
whole body. The result is `none` when `log.Fatal` ends the process, else the
new state and the run that remains (`none` once the handler has returned). -/
def HandlerRun.advance (dial_destination : Dialer) (r : HandlerRun) (s : State) :
    Option (State × Option HandlerRun) :=
  match r.pc with
  | 0 => some (createResponderIMUXIfNeeded r.chunk.SessionID s, some { r with pc := 1 })
  | 1 => some (writeResponseChunksIfNeeded r.socket r.chunk.SessionID s, some { r with pc := 2 })
  | 2 =>
    some (updateSessionChunkSize r.chunk.SessionID r.chunk.Data.length s,
      some { r with pc := 3 })
  | 3 =>
    match queueForDestinationDialIfNeeded dial_destination r.chunk.SocketID
        r.chunk.SessionID s with
    | none => none
    | some (s1, queue, err) => some (s1, some { r with pc := 4, queue := some (queue, err) })
  | _ =>
    match r.queue with
    | some (queue, none) => some (sendChunk queue r.chunk s, none)
    | some (_, some _) => some ({ s with dropped := s.dropped ++ [r.chunk] }, none)
    | none => some (s, none)

/-- The router with the runs of the handler that are under way. -/
structure System where
  state : State
  runs : List HandlerRun
deriving DecidableEq, Repr

/-- What a goroutine of the router does next. -/
inductive Action where
  /-- a chunk arrives on a transport socket: a run of the handler starts -/
  | arrive (socket : Conn) (chunk : Chunk)
  /-- the run at index `i` makes its next call -/
  | advance (i : Nat)
  /-- a writer task passes through its loop once -/
  | write (t : WriterTask) (write_ok : Bool)
  /-- a writer task fails to create its stream writer -/
  | createFailed (t : WriterTask)
  /-- the stale chunks of a session are put back on its queue -/
  | requeue (session_id : String)
deriving DecidableEq, Repr

/-- One step of the router; `none` when `log.Fatal` ends the process. An
action that cannot happen (no such run, a receive that blocks) leaves the
system as it is. -/
def System.step (dial_destination : Dialer) : Action → System → Option System
  | .arrive socket chunk, sys =>
    some { sys with runs := sys.runs ++ [{ socket := socket, chunk := chunk, pc := 0,
                                           queue := none }] }
  | .advance i, sys =>
    match sys.runs[i]? with
    | none => some sys
    | some r =>
      match r.advance dial_destination sys.state with
      | none => none
      | some (s1, some r1) => some { state := s1, runs := sys.runs.set i r1 }
      | some (s1, none) => some { state := s1, runs := sys.runs.eraseIdx i }
  | .write t write_ok, sys =>
    match writerLoop t write_ok sys.state with
    | none => some sys
    | some s1 => some { sys with state := s1 }
  | .createFailed t, sys => some { sys with state := writerCreateFailed t sys.state }
  | .requeue session_id, sys => some { sys with state := requeueStale session_id sys.state }

/-- The steps of `actions`, in order; `none` when `log.Fatal` ends the process. -/
def System.run (dial_destination : Dialer) : List Action → System → Option System
  | [], sys => some sys
  | a :: actions, sys =>
    match sys.step dial_destination a with
    | none => none
    | some sys1 => System.run dial_destination actions sys1

/-- The session has an entry in `responders`. -/
def State.hasResponder (s : State) (session_id : String) : Prop :=
  (s.responders.get session_id).isSome = true

/-- Every run of the handler that is past its first call, the call of
`createResponderIMUXIfNeeded`, has the responder of its session. -/
def System.Registered (sys : System) : Prop :=
  ∀ r ∈ sys.runs, 1 ≤ r.pc → sys.state.hasResponder r.chunk.SessionID

/-! ## The command loop of `imux.go` -/

/-- The predicate `unicode.IsSpace`, which `strings.Fields` and
`strings.TrimSpace` split and trim by. -/
def isSpace (c : Char) : Bool :=
  c = '\t' || c = '\n' || c.toNat = 0x0B || c.toNat = 0x0C || c = '\r' || c = ' '
  || c.toNat = 0x85 || c.toNat = 0xA0 || c.toNat = 0x1680
  || (0x2000 ≤ c.toNat && c.toNat ≤ 0x200A)
  || c.toNat = 0x2028 || c.toNat = 0x2029 || c.toNat = 0x202F || c.toNat = 0x205F
  || c.toNat = 0x3000

/-- The function `strings.TrimSpace`. -/
def TrimSpace (s : String) : String :=
  String.mk ((s.data.dropWhile isSpace).reverse.dropWhile isSpace).reverse

/-- The scan of `strings.Fields`: `field` is the field being read. -/
def fieldsFrom : List Char → List Char → List String
  | field, [] => if field = [] then [] else [String.mk field]
  | field, c :: cs =>
    if isSpace c then
      if field = [] then fieldsFrom [] cs else String.mk field :: fieldsFrom [] cs
    else fieldsFrom (field ++ [c]) cs

/-- The function `strings.Fields`. -/
def Fields (s : String) : List String :=
  fieldsFrom [] s.data

set_option linter.dupNamespace false in
/-- The request type `Command`. -/
structure Command where
  Command : String
  Args : List String
deriving DecidableEq, Repr

/-- What one pass of the loop of `CommandLoop` does with the line read. -/
inductive Dispatch where
  /-- the `continue` of a blank line -/
  | blank
  /-- the branch `get`, which does nothing -/
  | get
  /-- the branch `put` with the files handed to `ParseFileList` -/
  | put (args : List String)
  /-- the branch `exit`, which requests `Command{Command: "exit"}` -/
  | exit
  /-- the last branch: the request sent on the control connection -/
  | request (command : Command)
deriving DecidableEq, Repr

/-- The body of the loop of `CommandLoop` up to the request it makes, for the
`line` returned by `stdin.ReadString`; `len(command)` is the length in bytes. -/
def CommandLoop (line : String) : Dispatch :=
  let text := TrimSpace line
  let cmd := Fields text
  match cmd with
  | [] => .blank
  | command :: rest =>
    let args : List String := if command.utf8ByteSize > 1 then rest else []
    if command = "get" then .get
    else if command = "put" then .put args
    else if command = "exit" then .exit
    else .request { Command := command, Args := args }

/-- The range of a 64 bit `int`: the value a result wraps to. -/
def wrap64 (x : Int) : Int :=
  (x + 2 ^ 63) % 2 ^ 64 - 2 ^ 63

/-- The line `byte_progress := moved_bytes / total_bytes` of the status
goroutine of `put`: a division of two `int`, which truncates; `none` is the
run-time panic of a division by zero. -/
def byte_progress (moved_bytes total_bytes : Int) : Option Int :=
  if total_bytes = 0 then none else some (wrap64 (moved_bytes.tdiv total_bytes))

/-- The percent figure of the status line, `float64(int(byte_progress*10000))/100`,
in hundredths of a percent: the integer `int(byte_progress*10000)` that is
divided by 100. -/
def percentHundredths (moved_bytes total_bytes : Int) : Option Int :=
  (byte_progress moved_bytes total_bytes).map (fun p => wrap64 (p * 10000))

/-- The percentage `100 * moved_bytes / total_bytes` truncated to two decimal
places, in hundredths of a percent. -/
def truePercentHundredths (moved_bytes total_bytes : Int) : Int :=
  (10000 * moved_bytes) / total_bytes

/-! ## Go maps: lookup after assignment -/

namespace GoMap

variable {κ : Type} {α : Type} [DecidableEq κ]

theorem get_set_self (m : GoMap κ α) (k : κ) (v : α) : (m.set k v).get k = some v := by
  induction m with
  | nil => simp [set, get]
  | cons p m ih =>
    obtain ⟨k', v'⟩ := p
    by_cases h : k' = k
    · simp [set, get, h]
    · simp [set, get, h, ih]

theorem get_set_ne (m : GoMap κ α) (k k' : κ) (v : α) (h : k' ≠ k) :
    (m.set k v).get k' = m.get k' := by
  induction m with
  | nil => simp [set, get, Ne.symm h]
  | cons p m ih =>
    obtain ⟨k₀, v₀⟩ := p
    by_cases h0 : k₀ = k
    · subst h0
      simp [set, get, Ne.symm h]
    · by_cases h1 : k₀ = k'
      · subst h1
        simp [set, get, h0]
      · simp [set, get, h0, h1, ih]

theorem mem_of_get (m : GoMap κ α) (k : κ) (v : α) (h : m.get k = some v) : (k, v) ∈ m := by
  induction m with
  | nil => simp [get] at h
  | cons p m ih =>
    obtain ⟨k', v'⟩ := p
    by_cases hk : k' = k
    · subst hk
      simp only [get, if_true, Option.some.injEq] at h
      subst h
      exact List.mem_cons_self _ _
    · simp only [get, hk, if_false] at h
      exact List.mem_cons_of_mem _ (ih h)

theorem set_of_get_none (m : GoMap κ α) (k : κ) (v : α) (h : m.get k = none) :
    m.set k v = m ++ [(k, v)] := by
  induction m with
  | nil => rfl
  | cons p m ih =>
    obtain ⟨k', v'⟩ := p
    by_cases hk : k' = k
    · simp [get, hk] at h
    · simp only [get, hk, if_false] at h
      simp only [set, hk, if_false, ih h, List.cons_append]

end GoMap

/-! ## The session registry -/

theorem updateSessionChunkSize_get_self (session_id : String) (n : Int) (s : State) :
    (updateSessionChunkSize session_id n s).ObservedMaximumChunkSizes.get session_id
      = some (match s.ObservedMaximumChunkSizes.get session_id with
              | some size => max size n
              | none => n) := by
  unfold updateSessionChunkSize
  cases h : s.ObservedMaximumChunkSizes.get session_id with
  | none => simp [GoMap.get_set_self]
  | some size =>
    by_cases hgt : n > size
    · simp [hgt, GoMap.get_set_self, max_eq_right (le_of_lt hgt)]
    · simp [hgt, h, max_eq_left (not_lt.mp hgt)]

theorem updateSessionChunkSize_get_ne (session_id other : String) (n : Int) (s : State)
    (h : other ≠ session_id) :
    (updateSessionChunkSize session_id n s).ObservedMaximumChunkSizes.get other
      = s.ObservedMaximumChunkSizes.get other := by
  unfold updateSessionChunkSize
  cases hg : s.ObservedMaximumChunkSizes.get session_id with
  | none => simp [GoMap.get_set_ne _ _ _ _ h]
  | some size =>
    by_cases hgt : n > size
    · simp [hgt, GoMap.get_set_ne _ _ _ _ h]
    · simp [hgt]

theorem updateSessionChunkSizes_get_some (session_id : String) (ns : List Int) :
    ∀ (s : State) (v : Int), s.ObservedMaximumChunkSizes.get session_id = some v →
      (updateSessionChunkSizes session_id ns s).ObservedMaximumChunkSizes.get session_id
        = some (ns.foldl max v) := by
  induction ns with
  | nil => intro s v h; simpa [updateSessionChunkSizes] using h
  | cons n ns ih =>
    intro s v h
    have h1 := updateSessionChunkSize_get_self session_id n s
    rw [h] at h1
    exact ih _ _ h1

theorem updateSessionChunkSizes_get_ne (session_id other : String) (ns : List Int)
    (h : other ≠ session_id) :
    ∀ s : State, (updateSessionChunkSizes session_id ns s).ObservedMaximumChunkSizes.get other
      = s.ObservedMaximumChunkSizes.get other := by
  induction ns with
  | nil => intro s; rfl
  | cons n ns ih =>
    intro s
    exact (ih _).trans (updateSessionChunkSize_get_ne session_id other n s h)

/-- C7: after the calls `updateSessionChunkSize(session_id, n)`,
`updateSessionChunkSize(session_id, n_2)`, ... on a session that had no entry,
the stored size is the maximum of the `n_i`; on a session that had the size `v`
stored it is the maximum of `v` and the `n_i`; a single call never lowers a
stored size; and the entries of the other sessions are as before. -/
theorem updateSessionChunkSize_stores_max (session_id : String) (n : Int) (ns : List Int)
    (s : State) (h : s.ObservedMaximumChunkSizes.get session_id = none) :
    (updateSessionChunkSizes session_id (n :: ns) s).ObservedMaximumChunkSizes.get session_id
        = some (ns.foldl max n)
    ∧ (∀ (t : State) (v : Int), t.ObservedMaximumChunkSizes.get session_id = some v →
        (updateSessionChunkSizes session_id (n :: ns) t).ObservedMaximumChunkSizes.get session_id
          = some ((n :: ns).foldl max v))
    ∧ (∀ (t : State) (m v : Int), t.ObservedMaximumChunkSizes.get session_id = some v →
        ∃ v', (updateSessionChunkSize session_id m t).ObservedMaximumChunkSizes.get session_id
            = some v' ∧ v ≤ v')
    ∧ (∀ other, other ≠ session_id →
        (updateSessionChunkSizes session_id (n :: ns) s).ObservedMaximumChunkSizes.get other
          = s.ObservedMaximumChunkSizes.get other) := by
  refine ⟨?_, ?_, ?_, ?_⟩
  · have h1 := updateSessionChunkSize_get_self session_id n s
    rw [h] at h1
    exact updateSessionChunkSizes_get_some session_id ns _ _ h1
  · intro t v ht
    exact updateSessionChunkSizes_get_some session_id (n :: ns) t v ht
  · intro t m v ht
    refine ⟨max v m, ?_, le_max_left _ _⟩
    have h1 := updateSessionChunkSize_get_self session_id m t
    rw [ht] at h1
    exact h1
  · intro other ho
    exact updateSessionChunkSizes_get_ne session_id other (n :: ns) ho s

/-- C7 at the sizes 3, 9, 4 of a new session `"a"`: 9 is stored. -/
theorem updateSessionChunkSize_stores_max_witness :
    (updateSessionChunkSizes "a" [3, 9, 4] State.init).ObservedMaximumChunkSizes.get "a"
      = some 9 :=
  (updateSessionChunkSize_stores_max "a" 3 [9, 4] State.init (by decide)).1

theorem createResponderIMUXIfNeeded_ensures_responder (session_id : String) (s : State) :
    ∃ imux, (createResponderIMUXIfNeeded session_id s).responders.get session_id
      = some imux := by
  unfold createResponderIMUXIfNeeded
  cases h : s.responders.get session_id with
  | some imux => exact ⟨imux, by simp [h]⟩
  | none => exact ⟨_, GoMap.get_set_self _ _ _⟩

/-- C8: after `createResponderIMUXIfNeeded(session_id)` the session has a
responder; a session that had one keeps it and the whole state is as before;
and the responders of the other sessions are as before. -/
theorem createResponderIMUXIfNeeded_ensures (session_id : String) (s : State) :
    (∃ imux, (createResponderIMUXIfNeeded session_id s).responders.get session_id = some imux)
    ∧ (∀ imux, s.responders.get session_id = some imux →
        createResponderIMUXIfNeeded session_id s = s)
    ∧ (s.responders.get session_id = none →
        (createResponderIMUXIfNeeded session_id s).responders.get session_id
          = some (NewDataIMUX session_id))
    ∧ (∀ other, other ≠ session_id →
        (createResponderIMUXIfNeeded session_id s).responders.get other
          = s.responders.get other) := by
  unfold createResponderIMUXIfNeeded
  cases h : s.responders.get session_id with
  | some imux => simp [h]
  | none =>
    refine ⟨⟨_, GoMap.get_set_self _ _ _⟩, ?_, ?_, ?_⟩
    · intro imux hi; cases hi
    · intro _; exact GoMap.get_set_self _ _ _
    · intro other ho; exact GoMap.get_set_ne _ _ _ _ ho

/-- C8 at a session `"a"` whose responder holds a chunk: the call changes nothing. -/
theorem createResponderIMUXIfNeeded_ensures_witness :
    createResponderIMUXIfNeeded "a"
        { State.init with responders := [("a", ⟨[⟨"a", "x", 0, []⟩], []⟩)] }
      = { State.init with responders := [("a", ⟨[⟨"a", "x", 0, []⟩], []⟩)] } :=
  (createResponderIMUXIfNeeded_ensures "a"
    { State.init with responders := [("a", ⟨[⟨"a", "x", 0, []⟩], []⟩)] }).2.1
    ⟨[⟨"a", "x", 0, []⟩], []⟩ (by decide)

/-! ## Link registration and the writer goroutine -/

theorem writeResponseChunksIfNeeded_of_looping (socket : Conn) (session_id : String)
    (s : State) (b : Bool) (h : s.loopers.get socket = some b) :
    writeResponseChunksIfNeeded socket session_id s = s := by
  simp [writeResponseChunksIfNeeded, h]

theorem writeResponseChunksIfNeeded_looping (socket : Conn) (session_id : String) (s : State) :
    ∃ b, (writeResponseChunksIfNeeded socket session_id s).loopers.get socket = some b := by
  unfold writeResponseChunksIfNeeded
  cases h : s.loopers.get socket with
  | some b => exact ⟨b, by simp [h]⟩
  | none => exact ⟨true, GoMap.get_set_self _ _ _⟩

theorem registerLink_of_looping (socket : Conn) (sids : List String) (s : State) (b : Bool)
    (h : s.loopers.get socket = some b) : registerLink socket sids s = s := by
  induction sids with
  | nil => rfl
  | cons sid sids ih =>
    simp only [registerLink, List.foldl_cons] at ih ⊢
    rw [writeResponseChunksIfNeeded_of_looping socket sid s b h]
    exact ih

/-- C4: a call of `writeResponseChunksIfNeeded` with a socket that is marked
in `loopers` changes nothing, so it starts no writer task; hence after a first
registration every further registration of the socket, for any session, is
void, and any number of registrations of an unmarked socket starts exactly one
writer task, the one of the first registration. -/
theorem writeResponseChunksIfNeeded_idempotent (socket : Conn) (session_id : String)
    (sids : List String) (s : State) :
    (∀ b, s.loopers.get socket = some b →
      writeResponseChunksIfNeeded socket session_id s = s)
    ∧ registerLink socket sids (writeResponseChunksIfNeeded socket session_id s)
        = writeResponseChunksIfNeeded socket session_id s
    ∧ (s.loopers.get socket = none →
        (registerLink socket (session_id :: sids) s).started
            = s.started ++ [⟨socket, session_id⟩]
          ∧ (registerLink socket (session_id :: sids) s).writers
            = s.writers ++ [⟨socket, session_id⟩]
          ∧ (registerLink socket (session_id :: sids) s).loopers
            = s.loopers.set socket true) := by
  have hreg : registerLink socket sids (writeResponseChunksIfNeeded socket session_id s)
      = writeResponseChunksIfNeeded socket session_id s := by
    obtain ⟨b, hb⟩ := writeResponseChunksIfNeeded_looping socket session_id s
    exact registerLink_of_looping socket sids _ b hb
  refine ⟨fun b hb => writeResponseChunksIfNeeded_of_looping socket session_id s b hb,
    hreg, ?_⟩
  intro hnone
  have hstep : registerLink socket (session_id :: sids) s
      = registerLink socket sids (writeResponseChunksIfNeeded socket session_id s) := rfl
  rw [hstep, hreg]
  simp [writeResponseChunksIfNeeded, hnone]

/-- C4 at the link 7 registered for `"a"`, then `"a"` again, then `"b"`: one
writer task. -/
theorem writeResponseChunksIfNeeded_idempotent_witness :
    (registerLink 7 ["a", "a", "b"] State.init).started = [⟨7, "a"⟩] :=
  ((writeResponseChunksIfNeeded_idempotent 7 "a" ["a", "b"] State.init).2.2 (by decide)).1

/-- C5 fails on the code: in `servedSession`, where link 7 was registered for
session `"a"`, the write of the only writer task fails; afterwards no writer
task runs, yet link 7 is still marked in `loopers`, and the call
`writeResponseChunksIfNeeded(7, "a")` made again starts no writer task, so
nothing writes the response chunks of `"a"` down link 7 any more. -/
theorem writer_failure_leaves_link_marked :
    (writerLoop ⟨7, "a"⟩ false servedSession).map
        (fun s => (s.writers, s.loopers.get 7, (writeResponseChunksIfNeeded 7 "a" s).writers))
      = some ([], some true, []) := by
  decide

/-- What the writer goroutine leaves behind in general: when the write of a
running writer task fails, the task ends, `loopers` is as before, so the socket
stays marked, and a later registration of that socket changes nothing: no
writer task is started. -/
theorem writer_failure_keeps_link_marked (t : WriterTask) (s s' : State) (b : Bool)
    (hstep : writerLoop t false s = some s') (hnodup : s.writers.Nodup)
    (hmark : s.loopers.get t.socket = some b) :
    t ∈ s.writers ∧ t ∉ s'.writers ∧ s'.loopers = s.loopers ∧ s'.started = s.started
    ∧ ∀ session_id, writeResponseChunksIfNeeded t.socket session_id s' = s' := by
  unfold writerLoop at hstep
  by_cases hrun : t ∈ s.writers
  · simp only [hrun, if_true] at hstep
    cases hresp : s.responders.get t.session_id with
    | none => simp [hresp] at hstep
    | some chunk_stream =>
      cases hch : chunk_stream.Chunks with
      | nil => simp [hresp, hch] at hstep
      | cons new_chunk rest =>
        simp only [hresp, hch, Bool.false_eq_true, if_false, Option.some.injEq] at hstep
        subst hstep
        refine ⟨hrun, ?_, rfl, rfl, ?_⟩
        · exact fun hmem => (List.Nodup.mem_erase_iff hnodup).mp hmem |>.1 rfl
        · intro session_id
          exact writeResponseChunksIfNeeded_of_looping _ _ _ b hmark
  · simp [hrun] at hstep

/-- The same at `servedSession`: the task of link 7 runs before the failed
write and not after it. -/
theorem writer_failure_keeps_link_marked_witness :
    (⟨7, "a"⟩ : WriterTask) ∈ servedSession.writers
    ∧ (⟨7, "a"⟩ : WriterTask) ∉ ({ servedSession with
        responders := servedSession.responders.set "a"
          { Chunks := [], Stale := [⟨"a", "x", 0, [1]⟩] }
        writers := servedSession.writers.erase ⟨7, "a"⟩ } : State).writers :=
  have h := writer_failure_keeps_link_marked ⟨7, "a"⟩ servedSession
    { servedSession with
      responders := servedSession.responders.set "a"
        { Chunks := [], Stale := [⟨"a", "x", 0, [1]⟩] }
      writers := servedSession.writers.erase ⟨7, "a"⟩ } true
    (by decide) (by decide) (by decide)
  ⟨h.1, h.2.1⟩

/-- C6: when the write of a running writer task fails, the chunk it received
leaves `Chunks` and is sent once to `Stale` of the same session, and nothing is
recorded as sent; once the stale chunks are moved back, the handoff queue is
the rest of the queue followed by that chunk, so it holds the chunks it held
before the failure, each as often as before; and when nothing else is queued,
another running writer task of the session receives that chunk next and writes
it down its own socket. -/
theorem writer_failure_requeues_chunk (t : WriterTask) (s : State) (imux : DataIMUX)
    (chunk : Chunk) (rest : List Chunk) (hrun : t ∈ s.writers)
    (hresp : s.responders.get t.session_id = some imux) (hch : imux.Chunks = chunk :: rest) :
    ∃ s', writerLoop t false s = some s'
      ∧ s'.responders.get t.session_id
          = some { Chunks := rest, Stale := imux.Stale ++ [chunk] }
      ∧ s'.sent = s.sent
      ∧ (requeueStale t.session_id s').responders.get t.session_id
          = some { Chunks := rest ++ (imux.Stale ++ [chunk]), Stale := [] }
      ∧ (rest ++ (imux.Stale ++ [chunk])).Perm (imux.Chunks ++ imux.Stale)
      ∧ (∀ t', t' ∈ s.writers → t' ≠ t → t'.session_id = t.session_id →
          rest = [] → imux.Stale = [] →
          ∃ s'', writerLoop t' true (requeueStale t.session_id s') = some s''
            ∧ s''.sent = s.sent ++ [(t'.socket, chunk)]
            ∧ s''.responders.get t.session_id = some { Chunks := [], Stale := [] }) := by
  have hget : (s.responders.set t.session_id
      { Chunks := rest, Stale := imux.Stale ++ [chunk] }).get t.session_id
        = some { Chunks := rest, Stale := imux.Stale ++ [chunk] } :=
    GoMap.get_set_self _ _ _
  refine ⟨{ s with
      responders := s.responders.set t.session_id
        { Chunks := rest, Stale := imux.Stale ++ [chunk] }
      writers := s.writers.erase t }, ?_, hget, rfl, ?_, ?_, ?_⟩
  · simp [writerLoop, hrun, hresp, hch]
  · simp only [requeueStale, hget]
    exact GoMap.get_set_self _ _ _
  · rw [hch, ← List.append_assoc]
    exact List.perm_append_singleton chunk (rest ++ imux.Stale)
  · intro t' hrun' hne hsid hrest hstale
    subst hrest
    have hmem : t' ∈ s.writers.erase t := (List.mem_erase_of_ne hne).mpr hrun'
    simp only [requeueStale, hget, writerLoop, hmem, if_true, hsid, GoMap.get_set_self,
      hstale, List.nil_append]
    exact ⟨_, rfl, rfl, GoMap.get_set_self _ _ _⟩

/-- C6 at `servedSession` with a second link 8 serving `"a"`: the write on link
7 fails, the chunk is requeued, and link 8 writes it. -/
theorem writer_failure_requeues_chunk_witness :
    ∃ s', writerLoop ⟨7, "a"⟩ false (writeResponseChunksIfNeeded 8 "a" servedSession) = some s'
      ∧ ∃ s'', writerLoop ⟨8, "a"⟩ true (requeueStale "a" s') = some s''
        ∧ s''.sent = [(8, ⟨"a", "x", 0, [1]⟩)] := by
  obtain ⟨s', h1, _, _, _, _, h6⟩ := writer_failure_requeues_chunk ⟨7, "a"⟩
    (writeResponseChunksIfNeeded 8 "a" servedSession) ⟨[⟨"a", "x", 0, [1]⟩], []⟩
    ⟨"a", "x", 0, [1]⟩ [] (by decide) (by decide) rfl
  obtain ⟨s'', h7, h8, _⟩ := h6 ⟨8, "a"⟩ (by decide) (by decide) rfl rfl rfl
  exact ⟨s', h1, s'', h7, h8⟩

/-! ## The destination router -/

/-- What one call of `queueForDestinationDialIfNeeded` does when the session
has a responder: it returns a queue and a `nil` error; a socket id that has a
queue gets that queue and the state is as before; a socket id that has none is
dialed, and a new queue bound to the dialed connection is stored for it. -/
theorem queueForDestinationDialIfNeeded_spec (dial : Dialer) (socket_id session_id : String)
    (s : State) (hreg : ∃ imux, s.responders.get session_id = some imux) :
    ∃ s1 queue, queueForDestinationDialIfNeeded dial socket_id session_id s
        = some (s1, queue, none)
      ∧ s1.responders = s.responders
      ∧ s1.server_write_queues.get socket_id = some queue
      ∧ (∀ other, other ≠ socket_id →
          s1.server_write_queues.get other = s.server_write_queues.get other)
      ∧ (∀ q, s.server_write_queues.get socket_id = some q → s1 = s ∧ queue = q)
      ∧ (s.server_write_queues.get socket_id = none →
          s1.dialed = s.dialed ++ [socket_id] ∧ queue = s.queues.length
          ∧ s1.queues = s.queues ++ [NewWriteQueue (dial s.dialed.length).conn]
          ∧ s1.server_write_queues = s.server_write_queues.set socket_id s.queues.length) := by
  obtain ⟨imux, himux⟩ := hreg
  unfold queueForDestinationDialIfNeeded
  cases h : s.server_write_queues.get socket_id with
  | some q =>
    refine ⟨s, q, rfl, rfl, h, fun _ _ => rfl, ?_, ?_⟩
    · intro q' hq'
      cases hq'
      exact ⟨rfl, rfl⟩
    · intro hn; cases hn
  | none =>
    simp only [himux]
    refine ⟨_, _, rfl, rfl, GoMap.get_set_self _ _ _, ?_, ?_, ?_⟩
    · intro other ho
      exact GoMap.get_set_ne _ _ _ _ ho
    · intro q hq; cases hq
    · intro _; exact ⟨rfl, rfl, rfl, rfl⟩

theorem queueCalls_spec (dial : Dialer) (calls : List (String × String)) :
    ∀ s : State, (∀ c ∈ calls, ∃ imux, s.responders.get c.2 = some imux) →
      ∃ s' queues, queueCalls dial calls s = some (s', queues)
        ∧ s'.responders = s.responders
        ∧ (∀ sid q, s.server_write_queues.get sid = some q →
            s'.server_write_queues.get sid = some q)
        ∧ List.Forall₂ (fun c q => s'.server_write_queues.get c.1 = some q) calls queues
        ∧ (∀ sid, s'.dialed.count sid = s.dialed.count sid
            + if sid ∈ calls.map Prod.fst ∧ s.server_write_queues.get sid = none
              then 1 else 0) := by
  induction calls with
  | nil =>
    intro s _
    exact ⟨s, [], rfl, rfl, fun _ _ h => h, List.Forall₂.nil, by simp⟩
  | cons c calls ih =>
    intro s hreg
    obtain ⟨socket_id, session_id⟩ := c
    obtain ⟨s1, queue, hcall, hresp, hself, hother, hpresent, habsent⟩ :=
      queueForDestinationDialIfNeeded_spec dial socket_id session_id s
        (hreg (socket_id, session_id) (List.mem_cons_self _ _))
    have hreg1 : ∀ c ∈ calls, ∃ imux, s1.responders.get c.2 = some imux := by
      intro c hc
      rw [hresp]
      exact hreg c (List.mem_cons_of_mem _ hc)
    obtain ⟨s', queues, hrest, hresp', hkeep, hall, hcount⟩ := ih s1 hreg1
    have hkeep1 : ∀ sid q, s.server_write_queues.get sid = some q →
        s1.server_write_queues.get sid = some q := by
      intro sid q hq
      by_cases hs : sid = socket_id
      · subst hs
        obtain ⟨_, hq'⟩ := hpresent q hq
        rw [hself, hq']
      · rw [hother sid hs]; exact hq
    refine ⟨s', queue :: queues, ?_, hresp'.trans hresp, ?_, ?_, ?_⟩
    · simp [queueCalls, hcall, hrest]
    · intro sid q hq
      exact hkeep sid q (hkeep1 sid q hq)
    · exact List.Forall₂.cons (hkeep socket_id queue hself) hall
    · intro sid
      rw [hcount sid]
      by_cases hs : sid = socket_id
      · subst hs
        cases hq : s.server_write_queues.get sid with
        | some q =>
          obtain ⟨hs1, _⟩ := hpresent q hq
          simp [hs1, hq]
        | none =>
          obtain ⟨hd, _, _, _⟩ := habsent hq
          simp [hd, hself]
      · have hd : s1.dialed.count sid = s.dialed.count sid := by
          cases hq : s.server_write_queues.get socket_id with
          | some q => rw [(hpresent q hq).1]
          | none =>
            rw [(habsent hq).1, List.count_append, List.count_singleton]
            simp [Ne.symm hs]
        have hmem : sid ∈ socket_id :: calls.map Prod.fst ↔ sid ∈ calls.map Prod.fst := by
          simp [hs]
        rw [hd, hother sid hs, List.map_cons]
        simp only [hmem]

/-- C1: from an empty `server_write_queues`, with the sessions of the calls
registered, a sequence of calls of `queueForDestinationDialIfNeeded` returns
(the `log.Fatal` branch is not taken); afterwards `dial_destination` has been
called exactly once more for each socket id of the calls and not at all for
any other; every call returned the queue that is stored for its socket id at
the end, so calls with the same socket id returned the same queue; and a single
call on a socket id that has a queue returns it and changes nothing, while a
call on one that has none dials and stores a new queue. -/
theorem queueForDestinationDialIfNeeded_dials_once (dial : Dialer)
    (calls : List (String × String)) (s : State) (hempty : s.server_write_queues = [])
    (hreg : ∀ c ∈ calls, (s.responders.get c.2).isSome = true) :
    ∃ s' queues, queueCalls dial calls s = some (s', queues)
      ∧ (∀ sid, s'.dialed.count sid
          = s.dialed.count sid + if sid ∈ calls.map Prod.fst then 1 else 0)
      ∧ List.Forall₂ (fun c q => s'.server_write_queues.get c.1 = some q) calls queues
      ∧ (∀ (t : State) (socket_id session_id : String) (q : Nat),
          t.server_write_queues.get socket_id = some q →
          queueForDestinationDialIfNeeded dial socket_id session_id t = some (t, q, none))
      ∧ (∀ (t : State) (socket_id session_id : String),
          t.server_write_queues.get socket_id = none →
          (∃ imux, t.responders.get session_id = some imux) →
          ∃ t', queueForDestinationDialIfNeeded dial socket_id session_id t
              = some (t', t.queues.length, none)
            ∧ t'.dialed = t.dialed ++ [socket_id]
            ∧ t'.queues = t.queues ++ [NewWriteQueue (dial t.dialed.length).conn]
            ∧ t'.server_write_queues.get socket_id = some t.queues.length) := by
  obtain ⟨s', queues, hrun, _, _, hall, hcount⟩ := queueCalls_spec dial calls s
    (fun c hc => Option.isSome_iff_exists.mp (hreg c hc))
  refine ⟨s', queues, hrun, ?_, hall, ?_, ?_⟩
  · intro sid
    have hn : s.server_write_queues.get sid = none := by rw [hempty]; rfl
    have hiff : (sid ∈ calls.map Prod.fst ∧ s.server_write_queues.get sid = none)
        ↔ sid ∈ calls.map Prod.fst := ⟨fun h => h.1, fun h => ⟨h, hn⟩⟩
    rw [hcount sid]
    simp only [hiff]
  · intro t socket_id session_id q hq
    simp [queueForDestinationDialIfNeeded, hq]
  · intro t socket_id session_id hq hregt
    obtain ⟨t', queue, hcall, _, hself, _, _, habsent⟩ :=
      queueForDestinationDialIfNeeded_spec dial socket_id session_id t hregt
    obtain ⟨hd, hqueue, hqs, _⟩ := habsent hq
    subst hqueue
    exact ⟨t', hcall, hd, hqs, hself⟩

/-- C1 at the calls for the socket ids `"x"`, `"y"`, `"x"` of session `"a"`:
two dials, and the first and the third call return the same queue. -/
theorem queueForDestinationDialIfNeeded_dials_once_witness :
    ∃ s' queues,
      queueCalls dialAccepted [("x", "a"), ("y", "a"), ("x", "a")]
          (createResponderIMUXIfNeeded "a" State.init) = some (s', queues)
      ∧ (∀ sid, s'.dialed.count sid
          = (createResponderIMUXIfNeeded "a" State.init).dialed.count sid
            + if sid ∈ [("x", "a"), ("y", "a"), ("x", "a")].map Prod.fst then 1 else 0) := by
  obtain ⟨s', queues, h1, h2, _⟩ := queueForDestinationDialIfNeeded_dials_once dialAccepted
    [("x", "a"), ("y", "a"), ("x", "a")] (createResponderIMUXIfNeeded "a" State.init)
    (by decide) (by decide)
  exact ⟨s', queues, h1, h2⟩

/-- C2 fails on the code: with a destination that refuses the dial, the
handler does not drop the first chunk of socket id `"x"` but sends it to a
queue that has no destination and is stored for `"x"`; the second chunk of
`"x"` is sent to that queue, and `dial_destination` is not called again. -/
theorem dial_failure_is_memoized :
    (ManyToOne dialRefused 7 ⟨"a", "x", 0, [1]⟩ State.init).map
        (fun s => (s.dropped, s.server_write_queues.get "x", s.queues, s.dialed))
      = some ([], some 0, [⟨none, [⟨"a", "x", 0, [1]⟩]⟩], ["x"])
    ∧ (ManyToOneAll dialRefused [(7, ⟨"a", "x", 0, [1]⟩), (7, ⟨"a", "x", 1, [2]⟩)]
        State.init).map (fun s => (s.dropped, s.queues, s.dialed))
      = some ([], [⟨none, [⟨"a", "x", 0, [1]⟩, ⟨"a", "x", 1, [2]⟩]⟩], ["x"]) := by
  decide

/-! ## The transport pool -/

theorem builtClients_succ (resolved : Nat → Attempt) (n : Nat) :
    builtClients resolved (n + 1)
      = builtClients resolved n ++ ((resolved n).client?).toList := by
  unfold builtClients
  rw [List.range_succ, List.filterMap_append]
  cases h : (resolved n).client? <;> simp [List.filterMap, h]

theorem builtClients_eq_nil_iff (resolved : Nat → Attempt) (n : Nat) :
    builtClients resolved n = [] ↔ ∀ k, k < n → (resolved k).success = false := by
  unfold builtClients
  rw [List.filterMap_eq_nil_iff]
  constructor
  · intro h k hk
    have hk' := h k (List.mem_range.mpr hk)
    cases hr : resolved k <;> simp_all [Attempt.client?, Attempt.success]
  · intro h k hk
    have hk' := h k (List.mem_range.mp hk)
    cases hr : resolved k <;> simp_all [Attempt.client?, Attempt.success]

theorem receiveOne_consistent (resolved : Nat → Attempt) (total_sockets : Int)
    (p : BuildProgress) (h : p.Consistent resolved) :
    (receiveOne resolved total_sockets p).Consistent resolved
    ∧ (receiveOne resolved total_sockets p).received = p.received + 1 := by
  obtain ⟨hw, hb, hsum⟩ := h
  have hsucc := builtClients_succ resolved p.received
  unfold BuildProgress.Consistent
  cases hr : resolved p.received with
  | built client =>
    simp only [receiveOne, hr]
    rw [hr] at hsucc
    refine ⟨⟨?_, ?_, ?_⟩, trivial⟩
    · rw [hsucc, ← hw]; rfl
    · simp only [List.length_append, List.length_singleton, Nat.cast_add, Nat.cast_one, hb]
    · simp only [Nat.cast_add, Nat.cast_one]; omega
  | dialFailed =>
    simp only [receiveOne, hr]
    rw [hr] at hsucc
    refine ⟨⟨?_, hb, ?_⟩, trivial⟩
    · rw [hsucc, ← hw]; simp [Attempt.client?]
    · simp only [Nat.cast_add, Nat.cast_one]; omega
  | readyFailed =>
    simp only [receiveOne, hr]
    rw [hr] at hsucc
    refine ⟨⟨?_, hb, ?_⟩, trivial⟩
    · rw [hsucc, ← hw]; simp [Attempt.client?]
    · simp only [Nat.cast_add, Nat.cast_one]; omega

theorem receiveLoop_consistent (resolved : Nat → Attempt) (total_sockets : Int) (n : Nat) :
    ∀ p : BuildProgress, p.Consistent resolved →
      (receiveLoop resolved total_sockets n p).Consistent resolved
      ∧ (receiveLoop resolved total_sockets n p).received = p.received + n := by
  induction n with
  | zero => intro p h; exact ⟨h, rfl⟩
  | succ n ih =>
    intro p h
    obtain ⟨h1, hr1⟩ := receiveOne_consistent resolved total_sockets p h
    obtain ⟨h2, hr2⟩ := ih _ h1
    refine ⟨h2, ?_⟩
    show (receiveLoop resolved total_sockets n (receiveOne resolved total_sockets p)).received
      = p.received + (n + 1)
    rw [hr2, hr1]; omega

theorem receiveAll_consistent (resolved : Nat → Attempt) (total_sockets : Int)
    (networks : GoMap String Int) :
    ∀ p : BuildProgress, p.Consistent resolved →
      (networks.foldl (fun p nw => receiveLoop resolved total_sockets nw.2.toNat p) p).Consistent
          resolved
      ∧ (networks.foldl (fun p nw => receiveLoop resolved total_sockets nw.2.toNat p) p).received
          = p.received + linkCount networks := by
  induction networks with
  | nil => intro p h; exact ⟨h, rfl⟩
  | cons nw networks ih =>
    intro p h
    obtain ⟨h1, hr1⟩ := receiveLoop_consistent resolved total_sockets nw.2.toNat p h
    obtain ⟨h2, hr2⟩ := ih _ h1
    refine ⟨h2, ?_⟩
    simp only [List.foldl_cons, linkCount, List.map_cons, List.sum_cons] at hr2 ⊢
    rw [hr2, hr1]
    omega

theorem total_sockets_eq_linkCount (networks : GoMap String Int)
    (hcount : ∀ nw ∈ networks, 0 ≤ nw.2) :
    ∀ acc : Int, networks.foldl (fun n p => n + p.2) acc = acc + linkCount networks := by
  induction networks with
  | nil => intro acc; simp [linkCount]
  | cons nw networks ih =>
    intro acc
    have h0 : 0 ≤ nw.2 := hcount nw (List.mem_cons_self _ _)
    have hrest := ih (fun nw' h => hcount nw' (List.mem_cons_of_mem _ h)) (acc + nw.2)
    simp only [List.foldl_cons, linkCount, List.map_cons, List.sum_cons, Nat.cast_add] at hrest ⊢
    rw [hrest, Int.toNat_of_nonneg h0]
    omega

/-- C9: for a pool specification with non-negative link counts, `N` links in
all, and any outcome of the `N` attempts, `BuildWorkers` returns the clients of
the built links in the order they resolved; its final summary reads
(built, `N`, failed) with built the size of the pool and built + failed = `N`;
it returns an error exactly when every attempt failed, that error is the
all-failed error and the pool is then empty; and when it returns no error the
pool is not empty. -/
theorem BuildWorkers_fails_iff_all_failed (networks : GoMap String Int)
    (resolved : Nat → Attempt) (hcount : ∀ nw ∈ networks, 0 ≤ nw.2) :
    (BuildWorkers networks resolved).workers = builtClients resolved (linkCount networks)
    ∧ (BuildWorkers networks resolved).finished
        = (((BuildWorkers networks resolved).workers.length : Int), (linkCount networks : Int),
            (linkCount networks : Int) - (BuildWorkers networks resolved).workers.length)
    ∧ ((BuildWorkers networks resolved).err ≠ none
        ↔ ∀ k, k < linkCount networks → (resolved k).success = false)
    ∧ ((BuildWorkers networks resolved).err ≠ none →
        (BuildWorkers networks resolved).err = some "all transfer sockets failed to build"
        ∧ (BuildWorkers networks resolved).workers = [])
    ∧ ((BuildWorkers networks resolved).err = none →
        (BuildWorkers networks resolved).workers ≠ []) := by
  have hinit : BuildProgress.Consistent resolved
      { workers := [], total_built := 0, total_failed := 0, received := 0, statuses := [] } :=
    ⟨rfl, rfl, rfl⟩
  have htotal := total_sockets_eq_linkCount networks hcount 0
  rw [zero_add] at htotal
  obtain ⟨⟨hw, hb, hsum⟩, hrecv⟩ := receiveAll_consistent resolved
    (networks.foldl (fun n p => n + p.2) 0) networks _ hinit
  rw [Nat.zero_add] at hrecv
  rw [hrecv] at hw hsum
  rw [htotal] at hw hb hsum
  have hnil := builtClients_eq_nil_iff resolved (linkCount networks)
  have herr : (BuildWorkers networks resolved).err ≠ none
      ↔ (BuildWorkers networks resolved).workers = [] := by
    simp only [BuildWorkers, htotal, ne_eq, ite_eq_right_iff, Classical.not_imp]
    constructor
    · intro h
      have h1 := h.1
      have : ((networks.foldl
          (fun p nw => receiveLoop resolved (↑(linkCount networks)) nw.2.toNat p)
          { workers := [], total_built := 0, total_failed := 0, received := 0,
            statuses := [] }).workers.length : Int) = 0 := by omega
      exact List.length_eq_zero.mp (by exact_mod_cast this)
    · intro h
      rw [h] at hb
      simp only [List.length_nil, Nat.cast_zero] at hb
      refine ⟨by omega, by simp⟩
  refine ⟨by simpa only [BuildWorkers, htotal] using hw, ?_, ?_, ?_, ?_⟩
  · simp only [BuildWorkers, htotal, Prod.mk.injEq]
    exact ⟨hb, trivial, by omega⟩
  · rw [herr, ← hnil]
    simp only [BuildWorkers, htotal]
    rw [hw]
  · intro h
    refine ⟨?_, herr.mp h⟩
    simp only [BuildWorkers, ne_eq, ite_eq_right_iff, Classical.not_imp] at h ⊢
    simp [h.1]
  · intro h hnilw
    exact (herr.mpr hnilw) h

/-- C9 at five links of which two fail: three usable links, the summary
3/5 built, 2 failed, and no error; and at five links that all fail at the dial:
the all-failed error. -/
theorem BuildWorkers_fails_iff_all_failed_witness :
    (BuildWorkers [("0.0.0.0", 5)] twoOfFiveFail).workers = [0, 2, 4]
    ∧ (BuildWorkers [("0.0.0.0", 5)] twoOfFiveFail).finished = (3, 5, 2)
    ∧ (BuildWorkers [("0.0.0.0", 5)] twoOfFiveFail).err = none
    ∧ (BuildWorkers [("0.0.0.0", 5)] (fun _ => .dialFailed)).err
        = some "all transfer sockets failed to build" :=
  ⟨(BuildWorkers_fails_iff_all_failed [("0.0.0.0", 5)] twoOfFiveFail (by decide)).1.trans
      (by decide),
    by decide, by decide,
    ((BuildWorkers_fails_iff_all_failed [("0.0.0.0", 5)] (fun _ => .dialFailed)
      (by decide)).2.2.2.1 (by decide)).1⟩

/-- C10 fails on the code: `ParseNetworks` does not read its argument; for the
default of the flag, `"0.0.0.0:200"`, and for a list of two pools it returns
the map that sends `"0.0.0.0"` to 2. -/
theorem ParseNetworks_ignores_data :
    ParseNetworks "0.0.0.0:200" = [("0.0.0.0", 2)]
    ∧ (ParseNetworks "0.0.0.0:200").get "0.0.0.0" = some 2
    ∧ ParseNetworks "10.0.0.1:3;10.0.0.2:4" = [("0.0.0.0", 2)]
    ∧ (ParseNetworks "10.0.0.1:3;10.0.0.2:4").get "10.0.0.1" = none := by
  decide

/-! ## The chunk sequencer -/

theorem Sequencer.release_spec (fuel : Nat) :
    ∀ q : Sequencer,
      (Sequencer.release fuel q).1.map Chunk.SequenceID
          = List.range' q.expected (Sequencer.release fuel q).1.length
      ∧ (Sequencer.release fuel q).2.expected
          = q.expected + (Sequencer.release fuel q).1.length
      ∧ ((Sequencer.release fuel q).1 ++ (Sequencer.release fuel q).2.held).Perm q.held
      ∧ (q.held.length ≤ fuel → (Sequencer.release fuel q).2.Settled) := by
  induction fuel with
  | zero =>
    intro q
    refine ⟨rfl, rfl, List.Perm.refl _, ?_⟩
    intro hlen c hc
    have hnil : q.held = [] := List.length_eq_zero.mp (Nat.le_zero.mp hlen)
    simp only [Sequencer.release, hnil] at hc
    cases hc
  | succ fuel ih =>
    intro q
    cases hfind : q.held.find? (fun c => c.SequenceID = q.expected) with
    | none =>
      simp only [Sequencer.release, hfind]
      refine ⟨rfl, rfl, List.Perm.refl _, ?_⟩
      intro _ c hc
      have := List.find?_eq_none.mp hfind c hc
      simpa using this
    | some c =>
      have hc : c ∈ q.held := List.mem_of_find?_eq_some hfind
      have hseq : c.SequenceID = q.expected := by simpa using List.find?_some hfind
      obtain ⟨h1, h2, h3, h4⟩ := ih { expected := q.expected + 1, held := q.held.erase c }
      simp only [Sequencer.release, hfind]
      refine ⟨?_, ?_, ?_, ?_⟩
      · simp only [List.map_cons, List.length_cons, List.range'_succ, hseq, h1]
      · rw [h2]; simp only [List.length_cons]; omega
      · exact (List.Perm.cons c h3).trans (List.perm_cons_erase hc).symm
      · intro hlen
        apply h4
        simp only [List.length_erase_of_mem hc]
        omega

theorem Sequencer.buffer_spec (q : Sequencer) (chunk : Chunk) :
    (q.buffer chunk).1.map Chunk.SequenceID = List.range' q.expected (q.buffer chunk).1.length
    ∧ (q.buffer chunk).2.expected = q.expected + (q.buffer chunk).1.length
    ∧ ((q.buffer chunk).1 ++ (q.buffer chunk).2.held).Perm (q.held ++ [chunk])
    ∧ (q.buffer chunk).2.Settled := by
  obtain ⟨h1, h2, h3, h4⟩ :=
    Sequencer.release_spec (q.held.length + 1) { q with held := q.held ++ [chunk] }
  exact ⟨h1, h2, h3, h4 (by simp)⟩

theorem QueueWriter.writeAll_of_ok (write_ok : Nat → Bool) (chunks : List Chunk) :
    ∀ w : QueueWriter, (∀ i, i < chunks.length → write_ok (w.written.length + i) = true) →
      QueueWriter.writeAll write_ok w chunks = { w with written := w.written ++ chunks } := by
  induction chunks with
  | nil => intro w _; simp [QueueWriter.writeAll]
  | cons chunk chunks ih =>
    intro w hok
    have h0 : write_ok w.written.length = true := by simpa using hok 0 (by simp)
    simp only [QueueWriter.writeAll, h0, if_true]
    rw [ih]
    · simp
    · intro i hi
      have := hok (i + 1) (by simpa using hi)
      simpa [Nat.add_assoc, Nat.add_comm 1 i] using this

theorem QueueWriter.writeAll_spec (write_ok : Nat → Bool) (e : Nat) (chunks : List Chunk) :
    ∀ w : QueueWriter,
      w.written.map Chunk.SequenceID = List.range' e w.written.length →
      chunks.map Chunk.SequenceID = List.range' (e + w.written.length) chunks.length →
      (QueueWriter.writeAll write_ok w chunks).written.map Chunk.SequenceID
          = List.range' e (QueueWriter.writeAll write_ok w chunks).written.length
      ∧ (QueueWriter.writeAll write_ok w chunks).sequencer = w.sequencer
      ∧ ((QueueWriter.writeAll write_ok w chunks).stopped = none →
          (QueueWriter.writeAll write_ok w chunks).written = w.written ++ chunks) := by
  induction chunks with
  | nil => intro w hw _; exact ⟨hw, rfl, fun _ => by simp [QueueWriter.writeAll]⟩
  | cons chunk chunks ih =>
    intro w hw hcs
    simp only [List.map_cons, List.length_cons, List.range'_succ, List.cons.injEq] at hcs
    by_cases hok : write_ok w.written.length = true
    · simp only [QueueWriter.writeAll, hok, if_true]
      obtain ⟨h1, h2, h3⟩ := ih { w with written := w.written ++ [chunk] }
        (by
          simp only [List.map_append, List.map_cons, List.map_nil, List.length_append,
            List.length_singleton, List.range'_concat, hw, hcs.1, Nat.one_mul])
        (by
          simp only [List.length_append, List.length_singleton]
          rw [hcs.2, Nat.add_assoc])
      refine ⟨h1, h2, ?_⟩
      intro hs
      rw [h3 hs]
      simp
    · simp only [QueueWriter.writeAll, hok, Bool.false_eq_true, if_false]
      exact ⟨hw, trivial, fun h => by cases h⟩

theorem QueueWriter.receive_inOrder (env : WriterEnv) (w : QueueWriter) (chunk : Chunk)
    (h : w.InOrder env) : (w.receive env chunk).InOrder env := by
  obtain ⟨hw, he⟩ := h
  unfold QueueWriter.receive
  cases hs : w.stopped with
  | some stop => exact ⟨hw, fun h' => by rw [hs] at h'; cases h'⟩
  | none =>
    have hexp := he hs
    obtain ⟨b1, b2, _, _⟩ := Sequencer.buffer_spec w.sequencer chunk
    unfold Sequencer.accept
    by_cases hb : env.bound < (w.sequencer.buffer chunk).2.held.length
    · simp only [hb, if_true]
      exact ⟨hw, fun h' => by cases h'⟩
    · simp only [hb, if_false]
      obtain ⟨h1, h2, h3⟩ := QueueWriter.writeAll_spec env.write_ok env.origin
        (w.sequencer.buffer chunk).1
        { sequencer := (w.sequencer.buffer chunk).2, written := w.written, stopped := none } hw
        (by rw [b1, hexp])
      refine ⟨h1, ?_⟩
      intro hstop
      rw [h2, h3 hstop]
      simp only [List.length_append]
      rw [b2, hexp]
      omega

theorem QueueWriter.drain_inOrder (env : WriterEnv) (chunks : List Chunk) :
    ∀ w : QueueWriter, w.InOrder env → (QueueWriter.drain env w chunks).InOrder env := by
  induction chunks with
  | nil => intro w h; exact h
  | cons chunk chunks ih =>
    intro w h
    exact ih _ (QueueWriter.receive_inOrder env w chunk h)

theorem runLength_eq (ids : List Nat) (e : Nat) (he : e ∉ ids) :
    ∀ fuel start : Nat, start ≤ e → e - start ≤ fuel →
      (∀ i, start ≤ i → i < e → i ∈ ids) → runLength ids fuel start = e - start := by
  intro fuel
  induction fuel with
  | zero =>
    intro start _ hfuel _
    simp only [runLength]
    omega
  | succ fuel ih =>
    intro start hle hfuel hmem
    by_cases heq : start = e
    · subst heq
      simp [runLength, he]
    · have hin : start ∈ ids := hmem start (Nat.le_refl _) (by omega)
      simp only [runLength, hin, if_true]
      rw [ih (start + 1) (by omega) (by omega) (fun i h1 h2 => hmem i (by omega) h2)]
      omega

theorem QueueWriter.Running.held_length (env : WriterEnv) (received : List Chunk)
    (w : QueueWriter) (h : w.Running env received) :
    w.sequencer.held.length = heldBack env.origin (received.map Chunk.SequenceID) := by
  obtain ⟨_, hw, hexp, hperm, hset⟩ := h
  have hlen := hperm.length_eq
  simp only [List.length_append] at hlen
  have hids := hperm.map Chunk.SequenceID
  rw [List.map_append, hw] at hids
  have hnot : env.origin + w.written.length ∉ received.map Chunk.SequenceID := by
    intro hmem
    rcases List.mem_append.mp (hids.mem_iff.mpr hmem) with h1 | h1
    · simp at h1
    · obtain ⟨c, hc, hcs⟩ := List.mem_map.mp h1
      exact hset c hc (hcs.trans hexp.symm)
  have hrun := runLength_eq (received.map Chunk.SequenceID)
    (env.origin + w.written.length) hnot
    (received.map Chunk.SequenceID).length env.origin (by omega)
    (by simp only [List.length_map]; omega)
    (fun i h1 h2 => hids.mem_iff.mp (List.mem_append_left _ (by simp; omega)))
  have hrun1 : runLength (received.map Chunk.SequenceID) received.length env.origin
      = w.written.length := by
    simp only [List.length_map] at hrun
    rw [hrun]; omega
  simp only [heldBack, List.length_map, hrun1]
  omega

theorem QueueWriter.Running.receive (env : WriterEnv) (received : List Chunk)
    (w : QueueWriter) (chunk : Chunk) (h : w.Running env received)
    (hbound : heldBack env.origin ((received ++ [chunk]).map Chunk.SequenceID) ≤ env.bound)
    (hok : ∀ j, j < received.length + 1 → env.write_ok j = true) :
    (w.receive env chunk).Running env (received ++ [chunk]) := by
  obtain ⟨hs, hw, hexp, hperm, hset⟩ := h
  obtain ⟨b1, b2, b3, b4⟩ := Sequencer.buffer_spec w.sequencer chunk
  have hnext : QueueWriter.Running env (received ++ [chunk])
      { sequencer := (w.sequencer.buffer chunk).2
        written := w.written ++ (w.sequencer.buffer chunk).1
        stopped := none } := by
    refine ⟨rfl, ?_, ?_, ?_, b4⟩
    · simp only [List.map_append, List.length_append, hw, b1, hexp]
      rw [List.range'_append_1, Nat.add_comm]
    · simp only [List.length_append]
      rw [b2, hexp]; omega
    · simp only [List.append_assoc]
      have e1 : (w.written ++ ((w.sequencer.buffer chunk).1
          ++ (w.sequencer.buffer chunk).2.held)).Perm (w.written ++ (w.sequencer.held ++ [chunk])) :=
        List.Perm.append_left _ b3
      have e2 : (w.written ++ w.sequencer.held ++ [chunk]).Perm (received ++ [chunk]) :=
        List.Perm.append_right _ hperm
      exact e1.trans (by simpa only [List.append_assoc] using e2)
  have hheld := QueueWriter.Running.held_length env _ _ hnext
  simp only at hheld
  have hlen := hnext.2.2.2.1.length_eq
  simp only [List.length_append, List.length_singleton] at hlen
  have hfit : ¬ env.bound < (w.sequencer.buffer chunk).2.held.length := by omega
  have hwrite : QueueWriter.writeAll env.write_ok
      { sequencer := (w.sequencer.buffer chunk).2, written := w.written, stopped := none }
      (w.sequencer.buffer chunk).1
      = { sequencer := (w.sequencer.buffer chunk).2
          written := w.written ++ (w.sequencer.buffer chunk).1
          stopped := none } := by
    rw [QueueWriter.writeAll_of_ok]
    intro i hi
    exact hok _ (by simp only; omega)
  simp only [QueueWriter.receive, hs, Sequencer.accept, hfit, if_false, hwrite]
  exact hnext

theorem QueueWriter.Running.drain (env : WriterEnv) (chunks : List Chunk) :
    ∀ (received : List Chunk) (w : QueueWriter), w.Running env received →
      (∀ k, k ≤ chunks.length →
        heldBack env.origin ((received ++ chunks.take k).map Chunk.SequenceID) ≤ env.bound) →
      (∀ j, j < received.length + chunks.length → env.write_ok j = true) →
      (QueueWriter.drain env w chunks).Running env (received ++ chunks) := by
  induction chunks with
  | nil => intro received w h _ _; simpa [QueueWriter.drain] using h
  | cons chunk chunks ih =>
    intro received w h hbound hok
    have h1 := QueueWriter.Running.receive env received w chunk h
      (by simpa using hbound 1 (by simp))
      (fun j hj => hok j (by simp only [List.length_cons]; omega))
    have h2 := ih (received ++ [chunk]) _ h1
      (fun k hk => by
        have := hbound (k + 1) (by simpa using hk)
        simpa only [List.take_succ_cons, List.append_assoc, List.singleton_append] using this)
      (fun j hj => hok j (by
        simp only [List.length_append, List.length_singleton, List.length_cons,
          List.length_nil] at hj ⊢
        omega))
    simpa only [QueueWriter.drain, List.append_assoc, List.singleton_append] using h2

theorem QueueWriter.Running.complete (env : WriterEnv) (chunks : List Chunk) (w : QueueWriter)
    (h : w.Running env chunks)
    (hall : (chunks.map Chunk.SequenceID).Perm (List.range' env.origin chunks.length)) :
    w.written.map Chunk.SequenceID = List.range' env.origin chunks.length
    ∧ w.written.Perm chunks := by
  obtain ⟨_, hw, hexp, hperm, hset⟩ := h
  have hlen := hperm.length_eq
  simp only [List.length_append] at hlen
  have hheld : w.sequencer.held = [] := by
    by_contra hne
    have hpos : 0 < w.sequencer.held.length := List.length_pos.mpr hne
    have hk : env.origin + w.written.length ∈ List.range' env.origin chunks.length := by
      simp only [List.mem_range'_1]; omega
    have hk1 := (hall.mem_iff).mpr hk
    have hk2 := ((hperm.map Chunk.SequenceID).mem_iff).mpr hk1
    rw [List.map_append, List.mem_append, hw] at hk2
    rcases hk2 with hk2 | hk2
    · simp at hk2
    · obtain ⟨c, hc, hcs⟩ := List.mem_map.mp hk2
      exact hset c hc (hcs.trans hexp.symm)
  rw [hheld] at hperm hlen
  simp only [List.append_nil, List.length_nil, Nat.add_zero] at hperm hlen
  exact ⟨by rw [hw, hlen], hperm⟩

theorem QueueWriter.start_running (env : WriterEnv) :
    (QueueWriter.start env).Running env [] :=
  ⟨rfl, rfl, rfl, List.Perm.refl _, fun c hc => by cases hc⟩

theorem QueueWriter.start_inOrder (env : WriterEnv) : (QueueWriter.start env).InOrder env :=
  ⟨rfl, fun _ => rfl⟩

/-! ## The forward path: handler and sequencer -/

theorem router_prelude (socket : Conn) (session_id : String) (n : Int) (s : State) :
    (updateSessionChunkSize session_id n
        (writeResponseChunksIfNeeded socket session_id
          (createResponderIMUXIfNeeded session_id s))).server_write_queues
      = s.server_write_queues
    ∧ (updateSessionChunkSize session_id n
        (writeResponseChunksIfNeeded socket session_id
          (createResponderIMUXIfNeeded session_id s))).queues = s.queues
    ∧ (updateSessionChunkSize session_id n
        (writeResponseChunksIfNeeded socket session_id
          (createResponderIMUXIfNeeded session_id s))).dialed = s.dialed
    ∧ ∃ imux, (updateSessionChunkSize session_id n
        (writeResponseChunksIfNeeded socket session_id
          (createResponderIMUXIfNeeded session_id s))).responders.get session_id
        = some imux := by
  obtain ⟨imux, himux⟩ := (createResponderIMUXIfNeeded_ensures_responder session_id s)
  have hc : (createResponderIMUXIfNeeded session_id s).server_write_queues
        = s.server_write_queues
      ∧ (createResponderIMUXIfNeeded session_id s).queues = s.queues
      ∧ (createResponderIMUXIfNeeded session_id s).dialed = s.dialed := by
    unfold createResponderIMUXIfNeeded
    cases s.responders.get session_id <;> exact ⟨rfl, rfl, rfl⟩
  have hw : ∀ t : State,
      (writeResponseChunksIfNeeded socket session_id t).server_write_queues
        = t.server_write_queues
      ∧ (writeResponseChunksIfNeeded socket session_id t).queues = t.queues
      ∧ (writeResponseChunksIfNeeded socket session_id t).dialed = t.dialed
      ∧ (writeResponseChunksIfNeeded socket session_id t).responders = t.responders := by
    intro t
    unfold writeResponseChunksIfNeeded
    cases t.loopers.get socket <;> exact ⟨rfl, rfl, rfl, rfl⟩
  have hu : ∀ t : State,
      (updateSessionChunkSize session_id n t).server_write_queues = t.server_write_queues
      ∧ (updateSessionChunkSize session_id n t).queues = t.queues
      ∧ (updateSessionChunkSize session_id n t).dialed = t.dialed
      ∧ (updateSessionChunkSize session_id n t).responders = t.responders := by
    intro t
    unfold updateSessionChunkSize
    cases t.ObservedMaximumChunkSizes.get session_id with
    | none => exact ⟨rfl, rfl, rfl, rfl⟩
    | some size => by_cases hgt : n > size <;> simp [hgt]
  obtain ⟨u1, u2, u3, u4⟩ := hu (writeResponseChunksIfNeeded socket session_id
    (createResponderIMUXIfNeeded session_id s))
  obtain ⟨w1, w2, w3, w4⟩ := hw (createResponderIMUXIfNeeded session_id s)
  obtain ⟨c1, c2, c3⟩ := hc
  exact ⟨u1.trans (w1.trans c1), u2.trans (w2.trans c2), u3.trans (w3.trans c3),
    imux, by rw [u4, w4]; exact himux⟩

theorem ManyToOne_spec (dial : Dialer) (socket : Conn) (chunk : Chunk) (s : State) :
    ∃ s', ManyToOne dial socket chunk s = some s'
      ∧ (∀ q, s.server_write_queues.get chunk.SocketID = some q →
          s'.server_write_queues = s.server_write_queues ∧ s'.dialed = s.dialed
          ∧ s'.queues = s.queues.modify (fun w => { w with Chunks := w.Chunks ++ [chunk] }) q)
      ∧ (s.server_write_queues.get chunk.SocketID = none →
          s'.server_write_queues = s.server_write_queues.set chunk.SocketID s.queues.length
          ∧ s'.dialed = s.dialed ++ [chunk.SocketID]
          ∧ s'.queues = (s.queues ++ [NewWriteQueue (dial s.dialed.length).conn]).modify
              (fun w => { w with Chunks := w.Chunks ++ [chunk] }) s.queues.length) := by
  obtain ⟨p1, p2, p3, p4⟩ := router_prelude socket chunk.SessionID chunk.Data.length s
  obtain ⟨s1, queue, hcall, _, _, _, hpresent, habsent⟩ :=
    queueForDestinationDialIfNeeded_spec dial chunk.SocketID chunk.SessionID _ p4
  refine ⟨sendChunk queue chunk s1, ?_, ?_, ?_⟩
  · simp only [ManyToOne, hcall]
  · intro q hq
    rw [← p1] at hq
    obtain ⟨hs1, hqueue⟩ := hpresent q hq
    subst hqueue
    simp only [sendChunk, hs1, p1, p2, p3, and_self]
  · intro hq
    rw [← p1] at hq
    obtain ⟨hd, hqueue, hqs, hswq⟩ := habsent hq
    subst hqueue
    simp only [sendChunk, hd, hqs, hswq, p1, p2, p3, and_self]

theorem ManyToOne_wellFormed (dial : Dialer) (socket : Conn) (chunk : Chunk) (s s' : State)
    (hstep : ManyToOne dial socket chunk s = some s') (hwf : s.WellFormed) :
    s'.WellFormed ∧ s.dialed.length ≤ s'.dialed.length := by
  obtain ⟨s1, hs1, hpresent, habsent⟩ := ManyToOne_spec dial socket chunk s
  rw [hstep, Option.some.injEq] at hs1
  subst hs1
  obtain ⟨hlt, hnd⟩ := hwf
  cases hq : s.server_write_queues.get chunk.SocketID with
  | some q =>
    obtain ⟨e1, e2, e3⟩ := hpresent q hq
    refine ⟨⟨?_, ?_⟩, by rw [e2]⟩
    · rw [e1, e3, List.length_modify]; exact hlt
    · rw [e1]; exact hnd
  | none =>
    obtain ⟨e1, e2, e3⟩ := habsent hq
    rw [GoMap.set_of_get_none _ _ _ hq] at e1
    refine ⟨⟨?_, ?_⟩, by rw [e2]; simp⟩
    · rw [e1, e3, List.length_modify]
      intro p hp
      rcases List.mem_append.mp hp with hp | hp
      · have := hlt p hp
        simp only [List.length_append, List.length_singleton]; omega
      · simp only [List.mem_singleton] at hp
        subst hp
        simp
    · rw [e1, List.map_append, List.nodup_append]
      refine ⟨hnd, by simp, ?_⟩
      intro v hv hv'
      simp only [List.map_cons, List.map_nil, List.mem_singleton] at hv'
      subst hv'
      obtain ⟨p, hp, hpv⟩ := List.mem_map.mp hv
      have := hlt p hp
      omega

theorem ManyToOne_same_socket (dial : Dialer) (socket : Conn) (chunk : Chunk) (s s' : State)
    (hstep : ManyToOne dial socket chunk s = some s') :
    (∀ q wq, s.server_write_queues.get chunk.SocketID = some q → s.queues[q]? = some wq →
        s'.server_write_queues.get chunk.SocketID = some q
        ∧ s'.queues[q]? = some { wq with Chunks := wq.Chunks ++ [chunk] })
    ∧ (s.server_write_queues.get chunk.SocketID = none →
        s'.server_write_queues.get chunk.SocketID = some s.queues.length
        ∧ s'.queues[s.queues.length]?
          = some { Destination := (dial s.dialed.length).conn, Chunks := [chunk] }) := by
  obtain ⟨s1, hs1, hpresent, habsent⟩ := ManyToOne_spec dial socket chunk s
  rw [hstep, Option.some.injEq] at hs1
  subst hs1
  refine ⟨?_, ?_⟩
  · intro q wq hq hwq
    obtain ⟨e1, _, e3⟩ := hpresent q hq
    rw [e1, e3]
    exact ⟨hq, by simp only [List.getElem?_modify_eq, hwq, Option.map_eq_map, Option.map_some']⟩
  · intro hq
    obtain ⟨e1, _, e3⟩ := habsent hq
    rw [e1, e3]
    refine ⟨GoMap.get_set_self _ _ _, ?_⟩
    simp only [List.getElem?_modify_eq, List.getElem?_concat_length, Option.map_eq_map,
      Option.map_some', NewWriteQueue, List.nil_append]

theorem ManyToOne_other_socket (dial : Dialer) (socket : Conn) (chunk : Chunk) (s s' : State)
    (socket_id : String) (hstep : ManyToOne dial socket chunk s = some s')
    (hwf : s.WellFormed) (hne : chunk.SocketID ≠ socket_id) :
    s'.server_write_queues.get socket_id = s.server_write_queues.get socket_id
    ∧ ∀ q wq, s.server_write_queues.get socket_id = some q → s.queues[q]? = some wq →
        s'.queues[q]? = some wq := by
  obtain ⟨s1, hs1, hpresent, habsent⟩ := ManyToOne_spec dial socket chunk s
  rw [hstep, Option.some.injEq] at hs1
  subst hs1
  obtain ⟨hlt, hnd⟩ := hwf
  cases hq : s.server_write_queues.get chunk.SocketID with
  | some q' =>
    obtain ⟨e1, _, e3⟩ := hpresent q' hq
    refine ⟨by rw [e1], ?_⟩
    intro q wq hsq hwq
    have hqq : q' ≠ q := by
      intro heq
      subst heq
      have h1 := GoMap.mem_of_get _ _ _ hq
      have h2 := GoMap.mem_of_get _ _ _ hsq
      have := List.inj_on_of_nodup_map hnd h1 h2 rfl
      exact hne (congrArg Prod.fst this)
    rw [e3, List.getElem?_modify_ne _ _ hqq]
    exact hwq
  | none =>
    obtain ⟨e1, _, e3⟩ := habsent hq
    refine ⟨by rw [e1]; exact GoMap.get_set_ne _ _ _ _ (Ne.symm hne), ?_⟩
    intro q wq hsq hwq
    have hql : q < s.queues.length := hlt _ (GoMap.mem_of_get _ _ _ hsq)
    rw [e3, List.getElem?_modify_ne _ _ (by omega), List.getElem?_append_left hql]
    exact hwq

theorem ManyToOneAll_present (dial : Dialer) (socket_id : String)
    (arrivals : List (Conn × Chunk)) :
    ∀ (s : State) (q : Nat) (wq : WriteQueue), s.WellFormed →
      s.server_write_queues.get socket_id = some q → s.queues[q]? = some wq →
      ∃ s', ManyToOneAll dial arrivals s = some s'
        ∧ s'.server_write_queues.get socket_id = some q
        ∧ s'.queues[q]? = some { wq with
            Chunks := wq.Chunks
              ++ (arrivals.map Prod.snd).filter (fun c => c.SocketID = socket_id) } := by
  induction arrivals with
  | nil =>
    intro s q wq _ hq hwq
    exact ⟨s, rfl, hq, by simpa using hwq⟩
  | cons a arrivals ih =>
    intro s q wq hwf hq hwq
    obtain ⟨socket, chunk⟩ := a
    obtain ⟨s1, hstep, _, _⟩ := ManyToOne_spec dial socket chunk s
    obtain ⟨hwf1, _⟩ := ManyToOne_wellFormed dial socket chunk s s1 hstep hwf
    by_cases hc : chunk.SocketID = socket_id
    · obtain ⟨hpresent, _⟩ := ManyToOne_same_socket dial socket chunk s s1 hstep
      rw [hc] at hpresent
      obtain ⟨hq1, hwq1⟩ := hpresent q wq hq hwq
      obtain ⟨s', hrest, hq', hwq'⟩ := ih s1 q _ hwf1 hq1 hwq1
      refine ⟨s', ?_, hq', ?_⟩
      · simp only [ManyToOneAll, hstep, hrest]
      · simpa only [List.map_cons, List.filter_cons, hc, decide_True, if_true,
          List.append_assoc, List.singleton_append] using hwq'
    · obtain ⟨hget, hkeep⟩ :=
        ManyToOne_other_socket dial socket chunk s s1 socket_id hstep hwf hc
      obtain ⟨s', hrest, hq', hwq'⟩ := ih s1 q wq hwf1 (hget.trans hq) (hkeep q wq hq hwq)
      refine ⟨s', ?_, hq', ?_⟩
      · simp only [ManyToOneAll, hstep, hrest]
      · simpa only [List.map_cons, List.filter_cons, hc, decide_False, Bool.false_eq_true,
          if_false] using hwq'

theorem ManyToOneAll_new_socket (dial : Dialer) (env : WriterEnv) (socket_id : String)
    (arrivals : List (Conn × Chunk)) :
    ∀ s : State, s.WellFormed → s.server_write_queues.get socket_id = none →
      (∀ k, s.dialed.length ≤ k → ((dial k).conn).isSome = true) →
      ∃ s', ManyToOneAll dial arrivals s = some s'
        ∧ deliveredTo env socket_id s' = (QueueWriter.drain env (QueueWriter.start env)
            ((arrivals.map Prod.snd).filter (fun c => c.SocketID = socket_id))).written := by
  induction arrivals with
  | nil =>
    intro s _ hnew _
    exact ⟨s, rfl, by simp [deliveredTo, writerOf, hnew, QueueWriter.drain, QueueWriter.start]⟩
  | cons a arrivals ih =>
    intro s hwf hnew hdial
    obtain ⟨socket, chunk⟩ := a
    obtain ⟨s1, hstep, _, _⟩ := ManyToOne_spec dial socket chunk s
    obtain ⟨hwf1, hmono⟩ := ManyToOne_wellFormed dial socket chunk s s1 hstep hwf
    by_cases hc : chunk.SocketID = socket_id
    · obtain ⟨_, habsent⟩ := ManyToOne_same_socket dial socket chunk s s1 hstep
      rw [hc] at habsent
      obtain ⟨hq1, hwq1⟩ := habsent hnew
      obtain ⟨d, hd⟩ := Option.isSome_iff_exists.mp (hdial s.dialed.length (Nat.le_refl _))
      obtain ⟨s', hrest, hq', hwq'⟩ :=
        ManyToOneAll_present dial socket_id arrivals s1 _ _ hwf1 hq1 hwq1
      refine ⟨s', ?_, ?_⟩
      · simp only [ManyToOneAll, hstep, hrest]
      · simp only [deliveredTo, writerOf, hq', hwq', WriteQueue.writer, hd, List.map_cons,
          List.filter_cons, hc, decide_True, if_true, List.singleton_append]
    · obtain ⟨hget, _⟩ :=
        ManyToOne_other_socket dial socket chunk s s1 socket_id hstep hwf hc
      obtain ⟨s', hrest, hdel⟩ := ih s1 hwf1 (hget.trans hnew)
        (fun k hk => hdial k (Nat.le_trans hmono hk))
      refine ⟨s', ?_, ?_⟩
      · simp only [ManyToOneAll, hstep, hrest]
      · simpa only [List.map_cons, List.filter_cons, hc, decide_False, Bool.false_eq_true,
          if_false] using hdel

theorem QueueWriter.drain_append (env : WriterEnv) (chunks more : List Chunk) :
    ∀ w : QueueWriter, QueueWriter.drain env w (chunks ++ more)
      = QueueWriter.drain env (QueueWriter.drain env w chunks) more := by
  induction chunks with
  | nil => intro w; rfl
  | cons chunk chunks ih => intro w; exact ih _

theorem chunkOf_sequence_ids (ids : List Nat) : (ids.map chunkOf).map Chunk.SequenceID = ids := by
  induction ids with
  | nil => rfl
  | cons n ids ih => simp only [List.map_cons, ih]; rfl

/-- Whatever the bound of the buffer, an arrival order leaves a gap that is too
long for it: when the chunks 1, 2, ..., bound + 1 arrive before chunk 0, the
writer task ends with `SequenceGapTimeout` and delivers nothing, also after
chunk 0 has arrived. -/
theorem QueueWriter.gap_timeout_for_every_bound (bound : Nat) :
    (QueueWriter.drain (patientWriter bound) (QueueWriter.start (patientWriter bound))
        ((List.range' 1 (bound + 1)).map chunkOf ++ [chunkOf 0])).written = []
    ∧ (QueueWriter.drain (patientWriter bound) (QueueWriter.start (patientWriter bound))
        ((List.range' 1 (bound + 1)).map chunkOf ++ [chunkOf 0])).stopped
      = some WriterStop.SequenceGapTimeout := by
  have hrun := QueueWriter.Running.drain (patientWriter bound)
    ((List.range' 1 bound).map chunkOf) [] (QueueWriter.start (patientWriter bound))
    (QueueWriter.start_running _)
    (fun k _ => by
      refine Nat.le_trans (Nat.sub_le _ _) ?_
      simp only [List.nil_append, List.length_map, List.length_take, List.length_range']
      exact Nat.min_le_right _ _)
    (fun _ _ => rfl)
  rw [List.nil_append] at hrun
  obtain ⟨hs, hw, hexp, hperm, _⟩ := hrun
  have horigin : (patientWriter bound).origin = 0 := rfl
  have hbound : (patientWriter bound).bound = bound := rfl
  rw [horigin] at hw hexp
  have hids := hperm.map Chunk.SequenceID
  rw [List.map_append, hw, chunkOf_sequence_ids] at hids
  have hwritten : (QueueWriter.drain (patientWriter bound)
      (QueueWriter.start (patientWriter bound)) ((List.range' 1 bound).map chunkOf)).written
      = [] := by
    apply List.eq_nil_of_length_eq_zero
    by_contra hne
    have h0 : (0 : Nat) ∈ List.range' 1 bound :=
      hids.mem_iff.mp (List.mem_append_left _ (by
        simp only [List.mem_range'_1]; omega))
    simp at h0
  rw [hwritten] at hexp hperm hids
  simp only [List.nil_append, List.length_nil, Nat.add_zero, List.range'_zero] at hperm hexp hids
  have hheld := hperm.length_eq
  simp only [List.length_map, List.length_range'] at hheld
  obtain ⟨b1, _, b3, _⟩ := Sequencer.buffer_spec
    (QueueWriter.drain (patientWriter bound) (QueueWriter.start (patientWriter bound))
      ((List.range' 1 bound).map chunkOf)).sequencer (chunkOf (1 + 1 * bound))
  have hb3 := b3.map Chunk.SequenceID
  rw [List.map_append, b1, List.map_append, hexp] at hb3
  have hnone : ((QueueWriter.drain (patientWriter bound)
      (QueueWriter.start (patientWriter bound))
      ((List.range' 1 bound).map chunkOf)).sequencer.buffer (chunkOf (1 + 1 * bound))).1
      = [] := by
    apply List.eq_nil_of_length_eq_zero
    by_contra hne
    have h0 : (0 : Nat) ∈ List.map Chunk.SequenceID (QueueWriter.drain (patientWriter bound)
        (QueueWriter.start (patientWriter bound))
        ((List.range' 1 bound).map chunkOf)).sequencer.held
        ++ List.map Chunk.SequenceID [chunkOf (1 + 1 * bound)] :=
      hb3.mem_iff.mp (List.mem_append_left _ (by
        simp only [List.mem_range'_1]; omega))
    rcases List.mem_append.mp h0 with h0 | h0
    · have := hids.mem_iff.mp h0
      simp at this
    · simp only [List.map_cons, List.map_nil, List.mem_singleton] at h0
      have hc : (chunkOf (1 + 1 * bound)).SequenceID = 1 + 1 * bound := rfl
      omega
  have hlen := b3.length_eq
  rw [hnone] at hlen
  simp only [List.nil_append, List.length_append, List.length_singleton] at hlen
  have hover : (patientWriter bound).bound < ((QueueWriter.drain (patientWriter bound)
      (QueueWriter.start (patientWriter bound))
      ((List.range' 1 bound).map chunkOf)).sequencer.buffer
        (chunkOf (1 + 1 * bound))).2.held.length := by
    rw [hbound]; omega
  rw [List.range'_concat, List.map_append, List.map_cons, List.map_nil, List.append_assoc,
    QueueWriter.drain_append]
  simp only [List.singleton_append, QueueWriter.drain, QueueWriter.receive, hs,
    Sequencer.accept, hover, if_true, hwritten, and_self]

/-- C3 as stated fails, in three ways. Two sessions share the socket id `"x"`:
the chunks 0 and 1 of session `"a"` arrive in this order with chunk 1 of
session `"b"` in between, and the destination of `"x"` receives chunk 0 of
`"a"` and then chunk 1 of `"b"`, never chunk 1 of `"a"`. A gap longer than the
buffer: with a bound of 2 held chunks and the arrival order 1, 2, 3, 0 the
writer task ends with `SequenceGapTimeout` and nothing is delivered. A write
error: with the arrival order 0, 1, 2 and a second write that fails, only
chunk 0 is delivered. -/
theorem ManyToOne_delivery_counterexample :
    (ManyToOneAll dialAccepted
        [(7, chunkOf 0), (8, ⟨"b", "x", 1, [9]⟩), (7, chunkOf 1)] State.init).map
        (deliveredTo (patientWriter 8) "x")
      = some [chunkOf 0, ⟨"b", "x", 1, [9]⟩]
    ∧ ((ManyToOneAll dialAccepted
        [(7, chunkOf 1), (7, chunkOf 2), (7, chunkOf 3), (7, chunkOf 0)] State.init).bind
        (writerOf (patientWriter 2) "x")).map (fun w => (w.written, w.stopped))
      = some ([], some WriterStop.SequenceGapTimeout)
    ∧ ((ManyToOneAll dialAccepted
        [(7, chunkOf 0), (7, chunkOf 1), (7, chunkOf 2)] State.init).bind
        (writerOf { origin := 0, bound := 8, write_ok := fun k => k != 1 } "x")).map
        (fun w => (w.written, w.stopped))
      = some ([chunkOf 0], some WriterStop.WriteFailure) := by
  decide

/-- C3 as amended: the handler returns for every chunk handed to it. Among any
arrivals, in any arrival order and on any transport sockets, starting when the
socket id has no queue yet and with a destination that accepts the dials, the
chunks written to the destination of the socket id always carry the sequence
ids origin, origin + 1, ... in this order, none missing and none twice. And
when no chunk of another session carries the socket id, the arrived chunks of
the session and socket id carry each of the first `n` sequence ids exactly
once, their arrival order never leaves more chunks held back than the buffer
bound, and the first `n` writes to the destination succeed, then the chunks
written are exactly these chunks, in the order of their sequence ids. -/
theorem ManyToOne_delivers_in_sequence (dial : Dialer) (env : WriterEnv)
    (session_id socket_id : String) (arrivals : List (Conn × Chunk)) (s : State)
    (hwf : s.WellFormed) (hnew : s.server_write_queues.get socket_id = none)
    (hdial : ∀ k, s.dialed.length ≤ k → ((dial k).conn).isSome = true) :
    ∃ s', ManyToOneAll dial arrivals s = some s'
      ∧ (deliveredTo env socket_id s').map Chunk.SequenceID
          = List.range' env.origin (deliveredTo env socket_id s').length
      ∧ ∀ chunks,
          chunks = (arrivals.map Prod.snd).filter
            (fun c => c.SessionID = session_id ∧ c.SocketID = socket_id) →
          (∀ a ∈ arrivals, a.2.SocketID = socket_id → a.2.SessionID = session_id) →
          (chunks.map Chunk.SequenceID).Perm (List.range' env.origin chunks.length) →
          (∀ k, k ≤ chunks.length →
            heldBack env.origin ((chunks.take k).map Chunk.SequenceID) ≤ env.bound) →
          (∀ j, j < chunks.length → env.write_ok j = true) →
          (deliveredTo env socket_id s').map Chunk.SequenceID
              = List.range' env.origin chunks.length
          ∧ (deliveredTo env socket_id s').Perm chunks := by
  obtain ⟨s', hrun, hdel⟩ :=
    ManyToOneAll_new_socket dial env socket_id arrivals s hwf hnew hdial
  refine ⟨s', hrun, ?_, ?_⟩
  · rw [hdel]
    exact (QueueWriter.drain_inOrder env _ _ (QueueWriter.start_inOrder env)).1
  · intro chunks hchunks hsession hall hbound hok
    have hfilter : (arrivals.map Prod.snd).filter (fun c => c.SocketID = socket_id)
        = chunks := by
      rw [hchunks]
      apply List.filter_congr
      intro c hc
      obtain ⟨a, ha, hac⟩ := List.mem_map.mp hc
      subst hac
      by_cases hsock : a.2.SocketID = socket_id
      · simp [hsock, hsession a ha hsock]
      · simp [hsock]
    rw [hdel, hfilter]
    have hrunning := QueueWriter.Running.drain env chunks [] (QueueWriter.start env)
      (QueueWriter.start_running env)
      (fun k hk => by simpa using hbound k hk)
      (fun j hj => hok j (by simpa using hj))
    rw [List.nil_append] at hrunning
    exact QueueWriter.Running.complete env chunks _ hrunning hall

/-- C3 as amended, at the arrival order 0, 2, 1 over the links 7 and 8, with a
chunk of another socket id in between and a buffer bound of 1: the destination
of `"x"` receives the chunks 0, 1, 2. -/
theorem ManyToOne_delivers_in_sequence_witness :
    ∃ s', ManyToOneAll dialAccepted
        [(7, chunkOf 0), (8, chunkOf 2), (9, ⟨"b", "y", 5, []⟩), (7, chunkOf 1)]
        State.init = some s'
      ∧ (deliveredTo (patientWriter 1) "x" s').map Chunk.SequenceID = [0, 1, 2]
      ∧ (deliveredTo (patientWriter 1) "x" s').Perm [chunkOf 0, chunkOf 2, chunkOf 1] := by
  obtain ⟨s', h1, _, h3⟩ := ManyToOne_delivers_in_sequence dialAccepted (patientWriter 1)
    "a" "x" [(7, chunkOf 0), (8, chunkOf 2), (9, ⟨"b", "y", 5, []⟩), (7, chunkOf 1)] State.init
    ⟨fun p hp => (by cases hp), List.nodup_nil⟩ (by decide) (fun _ _ => rfl)
  have h4 := h3 [chunkOf 0, chunkOf 2, chunkOf 1] (by decide) (by decide) (by decide)
    (by decide) (fun _ _ => rfl)
  exact ⟨s', h1, h4.1.trans (by decide), h4.2⟩

/-! ## The command loop -/

theorem CommandLoop_of_fields (line command : String) (rest : List String)
    (hcmd : Fields (TrimSpace line) = command :: rest) (hget : command ≠ "get")
    (hput : command ≠ "put") (hexit : command ≠ "exit") :
    CommandLoop line
      = .request { Command := command
                   Args := if command.utf8ByteSize > 1 then rest else [] } := by
  simp only [CommandLoop, hcmd, hget, hput, hexit, if_false]

/-- C11 fails on the code: for the line `l -a`, whose first token `l` is one
byte long, the request sent is `Command{Command: "l"}` without the argument
`-a`, although the line splits into the tokens `l` and `-a`; for the line
`ls -a` the argument is sent. -/
theorem CommandLoop_drops_args_of_short_command :
    Fields (TrimSpace "l -a\n") = ["l", "-a"]
    ∧ CommandLoop "l -a\n" = .request { Command := "l", Args := [] }
    ∧ CommandLoop "ls -a\n" = .request { Command := "ls", Args := ["-a"] } := by
  decide

/-! ## The status line of `put` -/

theorem wrap64_of_small (x : Int) (hlo : -(2 ^ 63) ≤ x) (hhi : x < 2 ^ 63) : wrap64 x = x := by
  unfold wrap64
  omega

/-- C12 fails on the code: for `0 <= moved_bytes <= total_bytes` and
`total_bytes > 0` the percent figure of the status line is 0 until the
transfer is complete and 100 when it is, since `moved_bytes / total_bytes` is
a division of integers. -/
theorem percent_is_zero_until_complete (moved_bytes total_bytes : Int)
    (h0 : 0 ≤ moved_bytes) (hle : moved_bytes ≤ total_bytes) (hpos : 0 < total_bytes) :
    percentHundredths moved_bytes total_bytes
      = some (if moved_bytes = total_bytes then 10000 else 0) := by
  have hne : total_bytes ≠ 0 := ne_of_gt hpos
  by_cases heq : moved_bytes = total_bytes
  · subst heq
    have hdiv : moved_bytes.tdiv moved_bytes = 1 := by
      rw [Int.tdiv_eq_ediv h0 h0]
      exact Int.ediv_self hne
    simp only [percentHundredths, byte_progress, hne, if_false, hdiv, Option.map_some',
      if_true]
    rw [wrap64_of_small 1 (by decide) (by decide)]
    exact congrArg some (wrap64_of_small _ (by decide) (by decide))
  · have hlt : moved_bytes < total_bytes := lt_of_le_of_ne hle heq
    have hdiv : moved_bytes.tdiv total_bytes = 0 := Int.tdiv_eq_zero_of_lt h0 hlt
    simp only [percentHundredths, byte_progress, hne, if_false, hdiv, Option.map_some', heq]
    rw [wrap64_of_small 0 (by decide) (by decide)]
    exact congrArg some (wrap64_of_small _ (by decide) (by decide))

/-- C12 at 1 byte moved of 2: the status line shows 0 percent, the true figure
is 50.00 percent. -/
theorem percent_is_zero_until_complete_witness :
    percentHundredths 1 2 = some 0 ∧ truePercentHundredths 1 2 = 5000 :=
  ⟨(percent_is_zero_until_complete 1 2 (by decide) (by decide) (by decide)).trans
      (by decide), by decide⟩

/-! ## No run of the handler reaches `log.Fatal` -/

theorem GoMap.isSome_get_set {κ : Type} {α : Type} [DecidableEq κ] (m : GoMap κ α)
    (k k' : κ) (v : α) (h : (m.get k').isSome = true) : ((m.set k v).get k').isSome = true := by
  by_cases hk : k' = k
  · subst hk
    rw [GoMap.get_set_self]; rfl
  · rw [GoMap.get_set_ne _ _ _ _ hk]; exact h

theorem createResponderIMUXIfNeeded_hasResponder (session_id : String) (s : State) :
    (createResponderIMUXIfNeeded session_id s).hasResponder session_id
    ∧ ∀ sid, s.hasResponder sid → (createResponderIMUXIfNeeded session_id s).hasResponder sid := by
  refine ⟨?_, ?_⟩
  · obtain ⟨imux, h⟩ := createResponderIMUXIfNeeded_ensures_responder session_id s
    simp only [State.hasResponder, h, Option.isSome_some]
  · intro sid hsid
    unfold createResponderIMUXIfNeeded
    cases s.responders.get session_id with
    | some _ => exact hsid
    | none => exact GoMap.isSome_get_set _ _ _ _ hsid

theorem writeResponseChunksIfNeeded_responders (socket : Conn) (session_id : String)
    (s : State) : (writeResponseChunksIfNeeded socket session_id s).responders = s.responders := by
  unfold writeResponseChunksIfNeeded
  cases s.loopers.get socket <;> rfl

theorem updateSessionChunkSize_responders (session_id : String) (n : Int) (s : State) :
    (updateSessionChunkSize session_id n s).responders = s.responders := by
  unfold updateSessionChunkSize
  cases s.ObservedMaximumChunkSizes.get session_id with
  | none => rfl
  | some size => by_cases hgt : n > size <;> simp [hgt]

theorem writerLoop_hasResponder (t : WriterTask) (write_ok : Bool) (s s' : State)
    (hstep : writerLoop t write_ok s = some s') :
    ∀ sid, s.hasResponder sid → s'.hasResponder sid := by
  intro sid hsid
  unfold writerLoop at hstep
  by_cases hrun : t ∈ s.writers
  · simp only [hrun, if_true] at hstep
    cases hresp : s.responders.get t.session_id with
    | none => simp [hresp] at hstep
    | some chunk_stream =>
      cases hch : chunk_stream.Chunks with
      | nil => simp [hresp, hch] at hstep
      | cons new_chunk rest =>
        cases write_ok with
        | true =>
          simp only [hresp, hch, if_true, Option.some.injEq] at hstep
          subst hstep
          exact GoMap.isSome_get_set _ _ _ _ hsid
        | false =>
          simp only [hresp, hch, Bool.false_eq_true, if_false, Option.some.injEq] at hstep
          subst hstep
          exact GoMap.isSome_get_set _ _ _ _ hsid
  · simp [hrun] at hstep

theorem requeueStale_hasResponder (session_id : String) (s : State) :
    ∀ sid, s.hasResponder sid → (requeueStale session_id s).hasResponder sid := by
  intro sid hsid
  unfold requeueStale
  cases s.responders.get session_id with
  | none => exact hsid
  | some imux => exact GoMap.isSome_get_set _ _ _ _ hsid

theorem HandlerRun.advance_spec (dial : Dialer) (r : HandlerRun) (s : State)
    (hr : 1 ≤ r.pc → s.hasResponder r.chunk.SessionID) :
    ∃ s1 next, r.advance dial s = some (s1, next)
      ∧ (∀ sid, s.hasResponder sid → s1.hasResponder sid)
      ∧ (∀ r1, next = some r1 →
          r1.chunk = r.chunk ∧ s1.hasResponder r1.chunk.SessionID) := by
  unfold HandlerRun.advance
  rcases hpc : r.pc with _ | _ | _ | _ | n
  · obtain ⟨h1, h2⟩ := createResponderIMUXIfNeeded_hasResponder r.chunk.SessionID s
    refine ⟨_, _, rfl, h2, ?_⟩
    intro r1 hr1
    cases hr1
    exact ⟨rfl, h1⟩
  · have hp := hr (by omega)
    have he := writeResponseChunksIfNeeded_responders r.socket r.chunk.SessionID s
    refine ⟨_, _, rfl, ?_, ?_⟩
    · intro sid hsid
      simpa only [State.hasResponder, he] using hsid
    · intro r1 hr1
      cases hr1
      exact ⟨rfl, by simpa only [State.hasResponder, he] using hp⟩
  · have hp := hr (by omega)
    have he := updateSessionChunkSize_responders r.chunk.SessionID r.chunk.Data.length s
    refine ⟨_, _, rfl, ?_, ?_⟩
    · intro sid hsid
      simpa only [State.hasResponder, he] using hsid
    · intro r1 hr1
      cases hr1
      exact ⟨rfl, by simpa only [State.hasResponder, he] using hp⟩
  · have hp := hr (by omega)
    obtain ⟨s1, queue, hcall, hresp, _⟩ :=
      queueForDestinationDialIfNeeded_spec dial r.chunk.SocketID r.chunk.SessionID s
        (Option.isSome_iff_exists.mp hp)
    refine ⟨s1, some { r with pc := 4, queue := some (queue, none) },
      by simp only [hcall], ?_, ?_⟩
    · intro sid hsid
      simpa only [State.hasResponder, hresp] using hsid
    · intro r1 hr1
      cases hr1
      exact ⟨rfl, by simpa only [State.hasResponder, hresp] using hp⟩
  · rcases hq : r.queue with _ | ⟨queue, _ | err⟩
    · exact ⟨s, none, rfl, fun _ h => h, fun r1 hr1 => by cases hr1⟩
    · exact ⟨_, none, rfl, fun _ h => h, fun r1 hr1 => by cases hr1⟩
    · exact ⟨_, none, rfl, fun _ h => h, fun r1 hr1 => by cases hr1⟩

theorem System.step_registered (dial : Dialer) (a : Action) (sys : System)
    (hreg : sys.Registered) :
    ∃ sys1, sys.step dial a = some sys1 ∧ sys1.Registered
      ∧ ∀ sid, sys.state.hasResponder sid → sys1.state.hasResponder sid := by
  cases a with
  | arrive socket chunk =>
    refine ⟨_, rfl, ?_, fun _ h => h⟩
    intro r hmem hpc
    rcases List.mem_append.mp hmem with hmem | hmem
    · exact hreg r hmem hpc
    · simp only [List.mem_singleton] at hmem
      subst hmem
      simp at hpc
  | advance i =>
    simp only [System.step]
    cases hi : sys.runs[i]? with
    | none => exact ⟨sys, rfl, hreg, fun _ h => h⟩
    | some r =>
      have hmem : r ∈ sys.runs := List.getElem?_mem hi
      obtain ⟨s1, next, hadv, hmono, hnext⟩ :=
        HandlerRun.advance_spec dial r sys.state (hreg r hmem)
      cases next with
      | none =>
        refine ⟨{ state := s1, runs := sys.runs.eraseIdx i }, by simp only [hadv], ?_, hmono⟩
        intro r' hmem' hpc
        exact hmono _ (hreg r' (List.mem_of_mem_eraseIdx hmem') hpc)
      | some r1 =>
        refine ⟨{ state := s1, runs := sys.runs.set i r1 }, by simp only [hadv], ?_, hmono⟩
        intro r' hmem' hpc
        rcases List.mem_or_eq_of_mem_set hmem' with hmem' | heq
        · exact hmono _ (hreg r' hmem' hpc)
        · subst heq
          exact (hnext r' rfl).2
  | write t write_ok =>
    simp only [System.step]
    cases hw : writerLoop t write_ok sys.state with
    | none => exact ⟨sys, rfl, hreg, fun _ h => h⟩
    | some s1 =>
      have hmono := writerLoop_hasResponder t write_ok sys.state s1 hw
      exact ⟨_, rfl, fun r hmem hpc => hmono _ (hreg r hmem hpc), hmono⟩
  | createFailed t =>
    exact ⟨_, rfl, fun r hmem hpc => hreg r hmem hpc, fun _ h => h⟩
  | requeue session_id =>
    have hmono := requeueStale_hasResponder session_id sys.state
    exact ⟨_, rfl, fun r hmem hpc => hmono _ (hreg r hmem hpc), hmono⟩

theorem System.run_registered (dial : Dialer) (actions : List Action) :
    ∀ sys : System, sys.Registered →
      ∃ sys1, sys.run dial actions = some sys1 ∧ sys1.Registered
        ∧ ∀ sid, sys.state.hasResponder sid → sys1.state.hasResponder sid := by
  induction actions with
  | nil => intro sys hreg; exact ⟨sys, rfl, hreg, fun _ h => h⟩
  | cons a actions ih =>
    intro sys hreg
    obtain ⟨sys1, hstep, hreg1, hmono1⟩ := System.step_registered dial a sys hreg
    obtain ⟨sys2, hrun, hreg2, hmono2⟩ := ih sys1 hreg1
    exact ⟨sys2, by simp only [System.run, hstep, hrun], hreg2,
      fun sid h => hmono2 sid (hmono1 sid h)⟩

theorem System.run_one_handler (dial : Dialer) (socket : Conn) (chunk : Chunk) (s : State) :
    System.run dial
        [.arrive socket chunk, .advance 0, .advance 0, .advance 0, .advance 0, .advance 0]
        { state := s, runs := [] }
      = (ManyToOne dial socket chunk s).map (fun s1 => { state := s1, runs := [] }) := by
  simp only [System.run, System.step, List.nil_append, List.getElem?_cons_zero,
    HandlerRun.advance, List.set_cons_zero, ManyToOne]
  cases hq : queueForDestinationDialIfNeeded dial chunk.SocketID chunk.SessionID
      (updateSessionChunkSize chunk.SessionID chunk.Data.length
        (writeResponseChunksIfNeeded socket chunk.SessionID
          (createResponderIMUXIfNeeded chunk.SessionID s))) with
  | none => rfl
  | some res =>
    obtain ⟨s1, queue, err⟩ := res
    cases err <;> rfl

/-- C13: from any state of the router with no run of the handler under way,
whatever the goroutines do next and in whatever order (chunks arrive, runs of
the handler make their calls one at a time, writer tasks write or fail, stale
chunks are requeued), the process is never ended by `log.Fatal`: every run of
the handler that is past its call of `createResponderIMUXIfNeeded` finds the
responder of its session, so its call of `queueForDestinationDialIfNeeded`
returns, and a session that has a responder keeps it. In particular the
handler run on its own returns, and it is the run of its five steps. -/
theorem fatal_branch_unreachable (dial : Dialer) (s : State) (actions : List Action) :
    (∃ sys, System.run dial actions { state := s, runs := [] } = some sys
      ∧ (∀ r ∈ sys.runs, 1 ≤ r.pc →
          sys.state.hasResponder r.chunk.SessionID
          ∧ ∃ res, queueForDestinationDialIfNeeded dial r.chunk.SocketID r.chunk.SessionID
              sys.state = some res)
      ∧ ∀ sid, s.hasResponder sid → sys.state.hasResponder sid)
    ∧ ∀ socket chunk, ∃ s1, ManyToOne dial socket chunk s = some s1
        ∧ System.run dial
            [.arrive socket chunk, .advance 0, .advance 0, .advance 0, .advance 0, .advance 0]
            { state := s, runs := [] } = some { state := s1, runs := [] } := by
  refine ⟨?_, ?_⟩
  · obtain ⟨sys, hrun, hreg, hmono⟩ := System.run_registered dial actions
      { state := s, runs := [] } (fun r hr => by cases hr)
    refine ⟨sys, hrun, ?_, hmono⟩
    intro r hr hpc
    have hp := hreg r hr hpc
    obtain ⟨s1, queue, hcall, _⟩ := queueForDestinationDialIfNeeded_spec dial
      r.chunk.SocketID r.chunk.SessionID sys.state (Option.isSome_iff_exists.mp hp)
    exact ⟨hp, _, hcall⟩
  · intro socket chunk
    obtain ⟨s1, hs1, _⟩ := ManyToOne_spec dial socket chunk s
    refine ⟨s1, hs1, ?_⟩
    rw [System.run_one_handler, hs1]
    rfl

/-- C13 at two chunks of the new session `"a"` that arrive on the links 7 and
8 and whose runs of the handler interleave, the second run being the one that
dials: the process is not ended, both runs return, one dial is made and both
chunks reach the destination. -/
theorem fatal_branch_unreachable_witness :
    (∃ sys, System.run dialAccepted
        [.arrive 7 (chunkOf 0), .arrive 8 (chunkOf 1), .advance 0, .advance 1, .advance 0,
          .advance 1, .advance 1, .advance 1, .advance 0, .advance 0, .advance 0, .advance 0]
        { state := State.init, runs := [] } = some sys)
    ∧ (System.run dialAccepted
        [.arrive 7 (chunkOf 0), .arrive 8 (chunkOf 1), .advance 0, .advance 1, .advance 0,
          .advance 1, .advance 1, .advance 1, .advance 0, .advance 0, .advance 0, .advance 0]
        { state := State.init, runs := [] }).map
          (fun sys => (sys.runs, sys.state.dialed, deliveredTo (patientWriter 8) "x" sys.state))
        = some ([], ["x"], [chunkOf 0, chunkOf 1]) :=
  ⟨(fatal_branch_unreachable dialAccepted State.init _).1.imp (fun _ h => h.1), by decide⟩

end Imux
